import Mathlib

/-!
The artefact timeline and the patient-zero ranking of report-gen/ReadDB.go.

A shallow embedding of `processResults`, `whodunnit`, `sortHosts` and
`sortWeights` of `src/report-gen/ReadDB.go`, and of what `printResults` does to
the timeline.

Conventions of the embedding

* Go strings are Lean `String`s.  The byte-level operations of the source
  (`strings.Split` and `strings.Replace` on the one-byte separator `\`) act on
  the character list, which agrees with the byte-level behaviour on UTF-8 text;
  the cut `Time[0:19]` of `printResults` counts characters, which are the bytes
  of an ASCII time string.
* A Go map is an association list with pairwise distinct keys (`GoMap`);
  `m[k] = v` is `GoMap.set`.  The order in which a `range` statement visits a
  map is not fixed by the language, so it is supplied by the runtime
  (`GoRuntime.rangeOrder`), separately for every `range` statement executed.
* Library code (`time.Parse`, `sort.Sort`) is a field of `GoRuntime`; the
  theorems hold for every runtime that satisfies the library contracts
  (`GoRuntime.Valid`), and `goRuntime` is a concrete instance.
* A Go panic is the `Except.error` result of a function.
* The `prints` result of `processResults` (formatted report lines) is left out:
  it is written and never read by the code modelled here.
-/

namespace ReadDB

/-! ## Go maps -/

/-- A Go `map[string]α`: association list, keys pairwise distinct. -/
abbrev GoMap (α : Type) := List (String × α)

/-- The value expression `m[k]` with its presence flag. -/
def GoMap.get {α : Type} (m : GoMap α) (k : String) : Option α :=
  match m with
  | [] => none
  | (k', v) :: rest => if k' = k then some v else GoMap.get rest k

/-- The assignment `m[k] = v`: an existing key keeps its place, a new one is added. -/
def GoMap.set {α : Type} (m : GoMap α) (k : String) (v : α) : GoMap α :=
  match m with
  | [] => [(k, v)]
  | (k', v') :: rest => if k' = k then (k', v) :: rest else (k', v') :: GoMap.set rest k v

/-- The keys of a map. -/
def GoMap.keys {α : Type} (m : GoMap α) : List String := m.map Prod.fst

/-! ## The Go runtime: time parsing, sorting, map iteration order -/

/-- An instant, as an integer that grows with time (`time.Time` compared by `Before`). -/
abbrev Time := Int

/-- The parts of the Go runtime and standard library that the code relies on. -/
structure GoRuntime where
  /-- The function `time.Parse(layout, value)`; `none` is a non-nil error. -/
  parse : String → String → Option Time
  /-- The order in which the `n`-th `range` statement of a call visits a map. -/
  rangeOrder : {α : Type} → Nat → GoMap α → List (String × α)
  /-- The function `sort.Sort` on a slice, given the `Less` method of its type. -/
  sort : {α : Type} → (α → α → Bool) → List α → List α

/-- The contracts of the library functions: `range` visits every entry exactly
once, `sort.Sort` permutes its argument and leaves it ordered by the key that
`Less` compares. -/
structure GoRuntime.Valid (rt : GoRuntime) : Prop where
  range_perm : ∀ {α : Type} (n : Nat) (m : GoMap α), (rt.rangeOrder n m).Perm m
  sort_perm : ∀ {α : Type} (less : α → α → Bool) (l : List α), (rt.sort less l).Perm l
  sort_sorted : ∀ {α : Type} (key : α → Int) (l : List α),
    (rt.sort (fun a b => decide (key a < key b)) l).Pairwise (fun a b => key a ≤ key b)

/-! ## strings.Split and strings.Replace -/

/-- Split a character list at every occurrence of `sep`; the result is never empty. -/
def splitChars (sep : Char) : List Char → List (List Char)
  | [] => [[]]
  | c :: cs =>
    if c = sep then [] :: splitChars sep cs
    else
      match splitChars sep cs with
      | [] => [[c]]
      | seg :: segs => (c :: seg) :: segs

/-- The call `strings.Split(s, "\\")`. -/
def stringsSplit (s : String) : List String :=
  (splitChars '\\' s.data).map String.mk

/-- The call `strings.Replace(s, "\\", "/", -1)`. -/
def stringsReplace (s : String) : String :=
  String.mk (s.data.map fun c => if c = '\\' then '/' else c)

/-- A Go panic. -/
inductive Panic where
  | indexOutOfRange
  | parseError (layout value : String)
  deriving DecidableEq, Repr

/-- The slice index expression `xs[i]`, which panics outside the slice. -/
def index {α : Type} (xs : List α) (i : Int) : Except Panic α :=
  if i < 0 then .error .indexOutOfRange
  else match xs.get? i.toNat with
    | some x => .ok x
    | none => .error .indexOutOfRange

/-- The file identity of `processResults` (lines 783-796): `FileName` computed
from `mf.File`.  Every index expression of the source is a checked `index`. -/
def fileName (file : String) : Except Panic String := do
  let splitName := stringsSplit file
  let n : Int := splitName.length
  if n > 3 then
    let third ← index splitName (n - 3)
    let third' := if third = "mike" ∨ third = "Administrator" then "USER" else third
    let splitName' := splitName.set (n - 3).toNat third'
    let a ← index splitName' (n - 3)
    let b ← index splitName' (n - 2)
    let c ← index splitName' (n - 1)
    pure (a ++ "\\" ++ b ++ "\\" ++ c)
  else
    index splitName (n - 1)

/-! ## Data model (type declarations of ReadDB.go) -/

structure fileinfo where
  Mode : String := ""
  Mtime : String := ""
  SHA256 : String := ""
  deriving DecidableEq, Repr

structure matchedfile where
  File : String := ""
  FileInfo : fileinfo := {}
  deriving DecidableEq, Repr

structure RegRecord where
  Hive : String := ""
  Key : String := ""
  LastWrite : String := ""
  deriving DecidableEq, Repr

structure PrefetchResult where
  ExeName : String := ""
  DLLName : String := ""
  ExecDate : String := ""
  RunCount : String := ""
  deriving DecidableEq, Repr

/-- The type `SearchResults`: search label to matched files. -/
abbrev SearchResults := GoMap (List matchedfile)
/-- The type `RegRecords`. -/
abbrev RegRecords := GoMap (List RegRecord)
/-- The type `PrefetchRecs`. -/
abbrev PrefetchRecs := GoMap (List PrefetchResult)

/-- A decoded JSON value: what `Result.Elements` (an `interface{}` filled by
`json.Unmarshal`) can hold.  Numbers are kept as integers; the code modelled
here only prints them. -/
inductive Json where
  | null
  | bool (b : Bool)
  | num (n : Int)
  | str (s : String)
  | arr (xs : List Json)
  | obj (kvs : List (String × Json))

structure Result where
  FoundAnything : Bool := false
  Success : Bool := false
  Elements : Json := Json.null

structure Operation where
  Module : String

structure Action where
  ID : Int
  Operations : List Operation

structure Agent where
  Name : String

structure Command where
  ID : Int
  Action : Action
  Agent : Agent
  Results : List Result
  Status : String

structure Record where
  ActionID : Int := 0
  CommandID : Int := 0
  Module : String := ""
  Search : String := ""
  Agent : String := ""
  Status : String := ""
  Artefacts : GoMap String := []
  deriving DecidableEq, Repr

structure TimeEntry where
  ActionID : Int := 0
  Agent : String := ""
  Module : String := ""
  Status : String := ""
  Time : String := ""
  deriving DecidableEq, Repr

structure HostTime where
  Name : String
  ScoreTime : Time
  deriving DecidableEq, Repr

structure Weight where
  Name : String
  Score : Int
  deriving DecidableEq, Repr

structure Pair where
  Key : String
  Value : Time
  deriving DecidableEq, Repr

/-- The timeline `ArtefactTimes`: artefact identity to occurrences. -/
abbrev Timeline := GoMap (List TimeEntry)

deriving instance DecidableEq for Except

/-! ## json.Marshal followed by json.Unmarshal into the module shapes

`processResults` re-encodes `Elements` and decodes it into the shape of the
module, ignoring the error of `json.Unmarshal`: what counts is the value left
in `el`.  A JSON value of the wrong kind leaves the zero value of the target;
object keys are matched against the lower-case field tags of the declarations. -/

/-- Decode into a `string` field. -/
def decodeString : Option Json → String
  | some (Json.str s) => s
  | _ => ""

/-- Decode into a slice: a JSON array element by element, anything else `nil`. -/
def decodeSlice {α : Type} (f : Json → α) : Json → List α
  | Json.arr xs => xs.map f
  | _ => []

/-- Decode into a map with string keys: a JSON object entry by entry, anything else `nil`. -/
def decodeMap {α : Type} (f : Json → α) : Json → GoMap α
  | Json.obj kvs => kvs.foldl (fun m kv => m.set kv.1 (f kv.2)) []
  | _ => []

def decodeFileinfo : Option Json → fileinfo
  | some (Json.obj kvs) =>
    { Mode := decodeString (GoMap.get kvs "mode"),
      Mtime := decodeString (GoMap.get kvs "lastmodified"),
      SHA256 := decodeString (GoMap.get kvs "sha256") }
  | _ => {}

def decodeMatchedfile : Json → matchedfile
  | Json.obj kvs =>
    { File := decodeString (GoMap.get kvs "file"),
      FileInfo := decodeFileinfo (GoMap.get kvs "fileinfo") }
  | _ => {}

def decodeRegRecord : Json → RegRecord
  | Json.obj kvs =>
    { Hive := decodeString (GoMap.get kvs "hive"),
      Key := decodeString (GoMap.get kvs "key"),
      LastWrite := decodeString (GoMap.get kvs "lastwrite") }
  | _ => {}

def decodePrefetchResult : Json → PrefetchResult
  | Json.obj kvs =>
    { ExeName := decodeString (GoMap.get kvs "exename"),
      DLLName := decodeString (GoMap.get kvs "dllname"),
      ExecDate := decodeString (GoMap.get kvs "execdate"),
      RunCount := decodeString (GoMap.get kvs "runcount") }
  | _ => {}

/-- The value of `el` in the `"file"` case. -/
def unmarshalSearchResults (elements : Json) : SearchResults :=
  decodeMap (decodeSlice decodeMatchedfile) elements

/-- The value of `el` in the `"registry"` case. -/
def unmarshalRegRecords (elements : Json) : RegRecords :=
  decodeMap (decodeSlice decodeRegRecord) elements

/-- The value of `el` in the `"prefetch"` case. -/
def unmarshalPrefetchRecs (elements : Json) : PrefetchRecs :=
  decodeMap (decodeSlice decodePrefetchResult) elements

/-! ## processResults, first loop: commands to records (lines 734-860) -/

/-- The variables of `processResults` that live across the iterations of its
first loop: `rec` (here `record`, declared once, before the loops), the
`records` collected so far, and the number of `range` statements over a map
executed so far. -/
structure Decoding where
  record : Record := {}
  records : List Record := []
  ranges : Nat := 0

/-- Body of `for _, mf := range sr` (lines 779-807): `arts[FileName] = mf.FileInfo.Mtime`. -/
def fileArtefact (arts : GoMap String) (mf : matchedfile) : Except Panic (GoMap String) := do
  let FileName ← fileName mf.File
  pure (arts.set FileName mf.FileInfo.Mtime)

/-- The loop `for label, sr := range el` of the `"file"` case (lines 776-810).
`rec.Search` and `rec.Artefacts` are assigned inside the loop only. -/
def fileCase (rt : GoRuntime) (n : Nat) (record : Record) (el : SearchResults) :
    Except Panic Record := do
  let st ← (rt.rangeOrder n el).foldlM
    (fun (st : Record × GoMap String) (entry : String × List matchedfile) => do
      let arts ← entry.2.foldlM fileArtefact st.2
      pure ({ st.1 with Search := entry.1, Artefacts := arts }, arts))
    (record, [])
  pure st.1

/-- The loops of the `"registry"` case (lines 824-834) followed by `rec.Artefacts = arts`. -/
def registryCase (rt : GoRuntime) (n : Nat) (record : Record) (el : RegRecords) : Record :=
  let arts := (rt.rangeOrder n el).foldl
    (fun (arts : GoMap String) (entry : String × List RegRecord) =>
      entry.2.foldl (fun arts reg => arts.set reg.Key reg.LastWrite) arts)
    []
  { record with Artefacts := arts }

/-- The loops of the `"prefetch"` case (lines 845-851) followed by `rec.Artefacts = arts`. -/
def prefetchCase (rt : GoRuntime) (n : Nat) (record : Record) (el : PrefetchRecs) : Record :=
  let arts := (rt.rangeOrder n el).foldl
    (fun (arts : GoMap String) (entry : String × List PrefetchResult) =>
      entry.2.foldl (fun arts pref => arts.set pref.ExeName pref.ExecDate) arts)
    []
  { record with Artefacts := arts }

/-- Body of `for _, module := range modules` for operation `i` of `cmd` (lines 753-857). -/
def processModule (rt : GoRuntime) (cmd : Command) (i : Nat) (st : Decoding) (module : String) :
    Except Panic Decoding := do
  let op ← index cmd.Action.Operations i
  if op.Module = module then
    let record : Record :=
      { st.record with
        ActionID := cmd.Action.ID, Agent := cmd.Agent.Name, CommandID := cmd.ID,
        Module := op.Module, Status := cmd.Status }
    -- `base` reads `cmd.Results[i]`
    let res ← index cmd.Results i
    if record.Module = "file" then
      let record ← fileCase rt st.ranges record (unmarshalSearchResults res.Elements)
      pure { record := record, records := st.records ++ [record], ranges := st.ranges + 1 }
    else if record.Module = "registry" then
      let record := registryCase rt st.ranges record (unmarshalRegRecords res.Elements)
      pure { record := record, records := st.records ++ [record], ranges := st.ranges + 1 }
    else if record.Module = "prefetch" then
      let record := prefetchCase rt st.ranges record (unmarshalPrefetchRecs res.Elements)
      pure { record := record, records := st.records ++ [record], ranges := st.ranges + 1 }
    else
      pure { record := record, records := st.records ++ [record], ranges := st.ranges }
  else
    pure st

/-- Body of `for _, cmd := range commands` (lines 734-860).  `checkCommand` is
true from the first iteration on exactly when `targetAction != 0`. -/
def processCommand (rt : GoRuntime) (modules : List String) (targetAction : Int)
    (st : Decoding) (cmd : Command) : Except Panic Decoding :=
  if targetAction ≠ 0 ∧ cmd.Action.ID ≠ targetAction then
    pure st
  else
    (List.range cmd.Action.Operations.length).foldlM
      (fun st i => modules.foldlM (processModule rt cmd i) st) st

/-! ## processResults, second loop: records to timeline (lines 862-906) -/

/-- Body of `for _, entry := range Times` (lines 894-902), on the pair
(`found`, `ArtefactTimes`); `Times` is the list read before the loop. -/
def scanEntry (k : String) (Times : List TimeEntry) (tr : TimeEntry)
    (st : Bool × Timeline) (entry : TimeEntry) : Bool × Timeline :=
  let found := if entry.Agent = tr.Agent then true else st.1
  if found = false then (found, st.2.set k (Times ++ [tr])) else (found, st.2)

/-- Body of `for k, v := range curRec.Artefacts` (lines 870-904). -/
def addArtefact (curRec : Record) (st : Bool × Timeline) (kv : String × String) :
    Bool × Timeline :=
  if kv.1 ≠ "" then
    let tr : TimeEntry :=
      { Agent := curRec.Agent, Module := curRec.Module, Status := curRec.Status,
        ActionID := curRec.ActionID, Time := kv.2 }
    let k := stringsReplace kv.1
    let ArtefactTimes : Timeline :=
      if ((st.2.get k).getD []).length = 0 then st.2.set k [] else st.2
    let Times := (ArtefactTimes.get k).getD []
    if Times.length = 0 then
      (st.1, ArtefactTimes.set k (Times ++ [tr]))
    else
      Times.foldl (scanEntry k Times tr) (st.1, ArtefactTimes)
  else
    st

/-- Body of `for _, curRec := range records` (lines 867-906), on the pair
(`ArtefactTimes`, number of map `range` statements executed). -/
def addRecord (rt : GoRuntime) (st : Timeline × Nat) (curRec : Record) : Timeline × Nat :=
  (((rt.rangeOrder st.2 curRec.Artefacts).foldl (addArtefact curRec) (false, st.1)).2, st.2 + 1)

/-- The second loop of `processResults`, started from timeline `t` after `n`
map `range` statements. -/
def buildTimeline (rt : GoRuntime) (records : List Record) (t : Timeline) (n : Nat) : Timeline :=
  (records.foldl (addRecord rt) (t, n)).1

/-- The function `processResults` (lines 720-910): the records and `ArtefactTimes`. -/
def processResults (rt : GoRuntime) (commands : List Command) (modules : List String)
    (targetAction : Int) : Except Panic (List Record × Timeline) := do
  let st ← commands.foldlM (processCommand rt modules targetAction) {}
  pure (st.records, buildTimeline rt st.records [] st.ranges)

/-! ## whodunnit, sortHosts, sortWeights (lines 517-636) -/

/-- The method `PairList.Less`: `p[i].Value.Before(p[j].Value)`. -/
def PairList.Less (a b : Pair) : Bool := decide (a.Value < b.Value)

/-- The method `WeightList.Less`: `w[i].Score < w[j].Score`. -/
def WeightList.Less (a b : Weight) : Bool := decide (a.Score < b.Score)

/-- The function `sortHosts`; `n` numbers its `range` statement. -/
def sortHosts (rt : GoRuntime) (n : Nat) (times : GoMap Time) : List Pair :=
  rt.sort PairList.Less ((rt.rangeOrder n times).map fun kv => { Key := kv.1, Value := kv.2 })

/-- The function `sortWeights`; `n` numbers its `range` statement. -/
def sortWeights (rt : GoRuntime) (n : Nat) (weights : GoMap Int) : List Weight :=
  rt.sort WeightList.Less ((rt.rangeOrder n weights).map fun kv => { Name := kv.1, Score := kv.2 })

/-- The `switch tr[i].Module` of `whodunnit` (lines 529-536): no default case,
so another module keeps the layout of the previous iteration. -/
def switchLayout (module layout : String) : String :=
  if module = "file" then "2006-01-02 15:04:05 +0000 UTC"
  else if module = "registry" then "2006-01-02 15:04:05Z"
  else if module = "prefetch" then "2006-01-02 15:04:05.999999"
  else layout

/-- Body of `for i := 0; i < len(tr); i++` (lines 528-557) on (`arts`, `layout`). -/
def parseEntry (rt : GoRuntime) (st : GoMap Time × String) (e : TimeEntry) :
    Except Panic (GoMap Time × String) :=
  let layout := switchLayout e.Module st.2
  match rt.parse layout e.Time with
  | some artTime => pure (st.1.set e.Agent artTime, layout)
  | none =>
    if e.Module = "file" then
      let layout := "2006-01-02 15:04:05"
      match rt.parse layout e.Time with
      | none => throw (Panic.parseError layout e.Time)
      | some artTime => pure (st.1.set e.Agent artTime, layout)
    else
      pure (st.1, layout)

/-- The variables of `whodunnit` that live across the iterations of its first
loop: `arts`, `weights` and `layout` are all declared before the loop. -/
structure Ranking where
  arts : GoMap Time := []
  weights : GoMap HostTime := []
  layout : String := ""
  ranges : Nat := 1

/-- Body of `for art, tr := range artefactTimes` (lines 526-564). -/
def rankArtefact (rt : GoRuntime) (st : Ranking) (entry : String × List TimeEntry) :
    Except Panic Ranking := do
  let parsed ← entry.2.foldlM (parseEntry rt) (st.arts, st.layout)
  let pl := sortHosts rt st.ranges parsed.1
  let first ← index pl 0
  let ht : HostTime := { Name := first.Key, ScoreTime := first.Value }
  pure { arts := parsed.1, weights := st.weights.set entry.1 ht, layout := parsed.2,
         ranges := st.ranges + 1 }

/-- Body of `for _, ht2 := range weights` (lines 568-575). -/
def countHost (hosts : GoMap Int) (entry : String × HostTime) : GoMap Int :=
  match hosts.get entry.2.Name with
  | some count => hosts.set entry.2.Name (count + 1)
  | none => hosts.set entry.2.Name 1

/-- The function `whodunnit` (lines 517-586). -/
def whodunnit (rt : GoRuntime) (artefactTimes : Timeline) : Except Panic (List Weight) := do
  let st ← (rt.rangeOrder 0 artefactTimes).foldlM (rankArtefact rt) {}
  let hosts := (rt.rangeOrder st.ranges st.weights).foldl countHost []
  pure (sortWeights rt (st.ranges + 1) hosts)


/-! ## A concrete runtime

`goParse` follows `time.Parse` of the Go standard library (as of Go 1.20) on
the five layouts that `whodunnit` can pass to it; `insertionSort` is the
insertion sort that `sort.Sort` runs on short slices; `range` visits a map in
insertion order (`goRuntime`) or in the opposite order (`goRuntimeRev`). -/

/-- The value of a decimal digit. -/
def digitVal (c : Char) : Int := (c.toNat : Int) - 48

/-- The helper `getnum(s, fixed)` of package time: one or two digits, two when `fixed`. -/
def getnum (fixed : Bool) : List Char → Option (Int × List Char)
  | c1 :: c2 :: rest =>
    if c1.isDigit then
      if c2.isDigit then some (digitVal c1 * 10 + digitVal c2, rest)
      else if fixed then none else some (digitVal c1, c2 :: rest)
    else none
  | [c1] => if c1.isDigit ∧ fixed = false then some (digitVal c1, []) else none
  | [] => none

/-- The chunk `2006`: exactly four digits. -/
def getYear : List Char → Option (Int × List Char)
  | c1 :: c2 :: c3 :: c4 :: rest =>
    if c1.isDigit ∧ c2.isDigit ∧ c3.isDigit ∧ c4.isDigit then
      some (digitVal c1 * 1000 + digitVal c2 * 100 + digitVal c3 * 10 + digitVal c4, rest)
    else none
  | _ => none

/-- The helper `skip(value, prefix)` of package time for a layout text without
consecutive spaces: a space of the layout stands for any run of spaces (none
only at the end of the value), any other character for itself. -/
def skip : List Char → List Char → Option (List Char)
  | [], value => some value
  | p :: layoutText, value =>
    if p = ' ' then
      match value with
      | [] => skip layoutText []
      | v :: vs => if v = ' ' then skip layoutText ((v :: vs).dropWhile (· = ' ')) else none
    else
      match value with
      | [] => none
      | v :: vs => if v = p then skip layoutText vs else none

/-- The digits of a fractional second as nanoseconds: at most nine digits count. -/
def nanoseconds (digits : List Char) : Int :=
  ((digits.take 9).foldl (fun acc c => acc * 10 + digitVal c) 0) * 10 ^ (9 - (digits.take 9).length)

/-- An optional fractional second: `.` or `,` followed by at least one digit. -/
def getFraction : List Char → Int × List Char
  | sep :: d :: rest =>
    if (sep = '.' ∨ sep = ',') ∧ d.isDigit then
      (nanoseconds ((d :: rest).takeWhile Char.isDigit), (d :: rest).dropWhile Char.isDigit)
    else (0, sep :: d :: rest)
  | value => (0, value)

/-- The function `daysIn(month, year)` of package time. -/
def daysIn (month year : Int) : Int :=
  if month = 2 then
    if year % 4 = 0 ∧ (year % 100 ≠ 0 ∨ year % 400 = 0) then 29 else 28
  else if month = 4 ∨ month = 6 ∨ month = 9 ∨ month = 11 then 30
  else 31

/-- A numeric chunk of the layout after the literal text `pre`: the number
read (two digits when `fixed`), refused when it is not below `bound`. -/
def getChunk (pre : List Char) (fixed : Bool) (bound : Int) (value : List Char) :
    Option (Int × List Char) :=
  (skip pre value).bind fun value =>
    (getnum fixed value).bind fun r => if r.1 < bound then some r else none

/-- The common prefix `2006-01-02 15:04:05` of the layouts, followed by an
optional fractional second: the instant read and the rest of the value.  The
instant is the position of (year, month, day, hour, minute, second, nanosecond)
in lexicographic order, which is the order of `Before` on UTC times. -/
def parseClock (value : List Char) : Option (Time × List Char) :=
  (getYear value).bind fun year =>
  (getChunk ['-'] true 13 year.2).bind fun month =>
  (getChunk ['-'] true 100 month.2).bind fun day =>
  (getChunk [' '] false 24 day.2).bind fun hour =>
  (getChunk [':'] true 60 hour.2).bind fun min =>
  (getChunk [':'] true 60 min.2).bind fun sec =>
  let frac := getFraction sec.2
  if month.1 ≤ 0 ∨ day.1 < 1 ∨ day.1 > daysIn month.1 year.1 then none
  else
    some ((((((year.1 * 12 + (month.1 - 1)) * 31 + (day.1 - 1)) * 24 + hour.1) * 60 + min.1) * 60
            + sec.1) * 1000000000 + frac.1, frac.2)

/-- The function `time.Parse` on the layouts used by `whodunnit`. -/
def goParse (layout value : String) : Option Time :=
  if layout = "" then
    if value = "" then some 0 else none
  else if layout = "2006-01-02 15:04:05" ∨ layout = "2006-01-02 15:04:05.999999" then
    match parseClock value.data with
    | some (t, []) => some t
    | _ => none
  else if layout = "2006-01-02 15:04:05Z" then
    match (parseClock value.data).bind fun r => (skip ['Z'] r.2).map fun rest => (r.1, rest) with
    | some (t, []) => some t
    | _ => none
  else if layout = "2006-01-02 15:04:05 +0000 UTC" then
    match (parseClock value.data).bind fun r =>
        (skip " +0000 UTC".data r.2).map fun rest => (r.1, rest) with
    | some (t, []) => some t
    | _ => none
  else none

/-- The inner loop of `insertionSort` of package sort, on the sorted prefix
kept in reverse: the new element moves left while it is `Less` than its
neighbour. -/
def insertLeft {α : Type} (less : α → α → Bool) (x : α) : List α → List α
  | [] => [x]
  | y :: ys => if less x y then y :: insertLeft less x ys else x :: y :: ys

/-- The function `insertionSort` of package sort. -/
def insertionSort {α : Type} (less : α → α → Bool) (l : List α) : List α :=
  (l.foldl (fun sortedRev x => insertLeft less x sortedRev) []).reverse

/-- A runtime whose `range` visits a map in insertion order. -/
def goRuntime : GoRuntime :=
  { parse := goParse, rangeOrder := fun _ m => m, sort := insertionSort }

/-- A runtime whose `range` visits a map in reverse insertion order. -/
def goRuntimeRev : GoRuntime :=
  { parse := goParse, rangeOrder := fun _ m => m.reverse, sort := insertionSort }

/-! ## Predicates and scenario inputs used in the statements -/

/-- No occurrence list of the timeline holds two entries of the same host. -/
def hostsDistinct (t : Timeline) : Prop :=
  ∀ kv ∈ t, (kv.2.map TimeEntry.Agent).Nodup

/-- The default module list of `main`. -/
def defaultModules : List String := ["file", "registry", "prefetch"]

/-- A successful command of action 7 with one `prefetch` operation whose result
holds one prefetch record. -/
def prefetchCommand (id : Int) (host exeName execDate : String) : Command :=
  { ID := id,
    Action := { ID := 7, Operations := [{ Module := "prefetch" }] },
    Agent := { Name := host },
    Results :=
      [{ FoundAnything := true, Success := true,
         Elements := Json.obj
           [("results", Json.arr
              [Json.obj [("exename", Json.str exeName), ("execdate", Json.str execDate)]])] }],
    Status := "success" }

/-- The JSON of one matched file: path and last-modified time. -/
def matchedFileJson (pathTime : String × String) : Json :=
  Json.obj [("file", Json.str pathTime.1),
            ("fileinfo", Json.obj [("lastmodified", Json.str pathTime.2)])]

/-- A successful command of action 7 with one `file` operation whose result
holds the matched files `files` (path, last-modified time) under one search label. -/
def fileCommand (id : Int) (host label : String) (files : List (String × String)) : Command :=
  { ID := id,
    Action := { ID := 7, Operations := [{ Module := "file" }] },
    Agent := { Name := host },
    Results :=
      [{ FoundAnything := true, Success := true,
         Elements := Json.obj [(label, Json.arr (files.map matchedFileJson))] }],
    Status := "success" }

/-- The occurrence that the timeline loop builds for a record of action 7. -/
def occurrence (host module time : String) : TimeEntry :=
  { ActionID := 7, Agent := host, Module := module, Status := "success", Time := time }

/-- Three commands: host A, then host B twice, all reporting `x.exe`. -/
def repeatCommands : List Command :=
  [prefetchCommand 1 "A" "x.exe" "2023-01-01 10:00:00",
   prefetchCommand 2 "B" "x.exe" "2023-01-01 11:00:00",
   prefetchCommand 3 "B" "x.exe" "2023-01-01 12:00:00"]

/-- The timeline built from `repeatCommands`. -/
def repeatTimeline : Timeline :=
  [("x.exe", [occurrence "A" "prefetch" "2023-01-01 10:00:00",
              occurrence "B" "prefetch" "2023-01-01 11:00:00",
              occurrence "B" "prefetch" "2023-01-01 12:00:00"])]

/-- The three modules that `processResults` and `whodunnit` have a case for. -/
def knownModule (module : String) : Prop :=
  module = "file" ∨ module = "registry" ∨ module = "prefetch"

instance (module : String) : Decidable (knownModule module) := by
  unfold knownModule; infer_instance

/-- The instant that `whodunnit` reads from an occurrence of a known module:
the layout of the module and, for the file module, the fallback layout. -/
def occurrenceTime (rt : GoRuntime) (e : TimeEntry) : Option Time :=
  match rt.parse (switchLayout e.Module "") e.Time with
  | some t => some t
  | none => if e.Module = "file" then rt.parse "2006-01-02 15:04:05" e.Time else none

/-- Every occurrence of the timeline belongs to a known module and its time parses. -/
def timesParse (rt : GoRuntime) (t : Timeline) : Prop :=
  ∀ kv ∈ t, ∀ e ∈ kv.2, knownModule e.Module ∧ (occurrenceTime rt e).isSome = true

/-- The occurrence `e` has the earliest time of the occurrence list `occs`. -/
def isEarliest (rt : GoRuntime) (occs : List TimeEntry) (e : TimeEntry) : Bool :=
  match occurrenceTime rt e with
  | some t =>
    occs.all fun e' =>
      match occurrenceTime rt e' with
      | some t' => decide (t ≤ t')
      | none => true
  | none => false

/-- The Host Suspicion Score in the words of the specification: the number of
artefact identities for which an occurrence of `host` has the earliest time of
the identity's own occurrence list. -/
def earliestCount (rt : GoRuntime) (t : Timeline) (host : String) : Int :=
  ((t.filter fun kv => kv.2.any fun e => decide (e.Agent = host) && isEarliest rt kv.2 e).length : Nat)

/-- The score of `host` in a ranking; a host that is absent has none. -/
def scoreOf (wl : List Weight) (host : String) : Option Int :=
  (wl.find? fun w => decide (w.Name = host)).map Weight.Score

/-- The occurrences of each identity have pairwise distinct times. -/
def timesDistinct (rt : GoRuntime) (t : Timeline) : Prop :=
  ∀ kv ∈ t, (kv.2.map (occurrenceTime rt)).Nodup

/-- The ranking is ordered by score, highest first. -/
def sortedDescending (wl : List Weight) : Prop :=
  wl.Pairwise fun a b => b.Score ≤ a.Score

/-- The ranking is ordered by score, lowest first. -/
def sortedAscending (wl : List Weight) : Prop :=
  wl.Pairwise fun a b => a.Score ≤ b.Score

/-- Two identities, each seen on one host only: `x.exe` on A, `y.exe` later on B. -/
def twoArtefacts : Timeline :=
  [("x.exe", [occurrence "A" "prefetch" "2023-01-01 10:00:00"]),
   ("y.exe", [occurrence "B" "prefetch" "2023-01-01 12:00:00"])]

/-- Three identities: two seen on A only, one seen earlier on B only. -/
def threeArtefacts : Timeline :=
  [("x.exe", [occurrence "A" "prefetch" "2023-01-01 10:00:00"]),
   ("y.exe", [occurrence "A" "prefetch" "2023-01-01 11:00:00"]),
   ("z.exe", [occurrence "B" "prefetch" "2023-01-01 09:00:00"])]

/-- One identity seen on two hosts: by the first host at `timeA`, by the
second at `timeB`. -/
def sharedArtefact (art hostA timeA hostB timeB : String) : Timeline :=
  [(art, [occurrence hostA "prefetch" timeA, occurrence hostB "prefetch" timeB])]

/-! ## printResults: its effect on the timeline (lines 911-1355)

`printResults` returns nothing.  The model returns the two things it leaves
behind that later code depends on: the content of `ArtefactTimes` after the
call and the ranking `wl` that the timeline mode obtains from `whodunnit`.  The
report lines and the output files are left out (file creation is taken to
succeed).  Time strings are cut by characters, which is the cut by bytes of the
source on ASCII text. -/

/-- The runtime seen by a callee after the caller has executed `k` map `range`
statements. -/
def GoRuntime.after (rt : GoRuntime) (k : Nat) : GoRuntime :=
  { parse := rt.parse, rangeOrder := fun n m => rt.rangeOrder (n + k) m, sort := rt.sort }

/-- The statement `tr[i].Time = tr[i].Time[0:19]` under `if len(tr[i].Time) > 19`
(lines 1087-1089). -/
def truncateTime (e : TimeEntry) : TimeEntry :=
  if e.Time.length > 19 then { e with Time := String.mk (e.Time.data.take 19) } else e

/-- Body of `for art, tr := range ArtefactTimes` in the timeline mode (lines
1072-1101): `tr[0].Module` is read, then every `tr[i].Time` is cut in the slice
that the map holds. -/
def renderArtefact (ArtefactTimes : Timeline) (entry : String × List TimeEntry) :
    Except Panic Timeline := do
  let _ ← index entry.2 0
  pure (ArtefactTimes.set entry.1 (entry.2.map truncateTime))

/-- The function `printResults`: the content of `ArtefactTimes` when it returns
and the ranking computed by the timeline mode.  The timeline mode reads
`commands[0]`, runs the artefact loop and then calls `whodunnit(ArtefactTimes)`;
the other modes read `records` only.  The parameters `actionID`, `records`,
`modules` and `destFile` of the source feed the report lines only. -/
def printResults (rt : GoRuntime) (commands : List Command) (ArtefactTimes : Timeline)
    (outputMode : String) : Except Panic (Timeline × Option (List Weight)) :=
  if outputMode = "timeline" then do
    let _ ← index commands 0
    let t ← (rt.rangeOrder 0 ArtefactTimes).foldlM renderArtefact ArtefactTimes
    let wl ← whodunnit (rt.after 1) t
    pure (t, some wl)
  else
    pure (ArtefactTimes, none)

/-- A successful command of action 7 with one `registry` operation whose result
holds one registry record. -/
def registryCommand (id : Int) (host hive key lastWrite : String) : Command :=
  { ID := id,
    Action := { ID := 7, Operations := [{ Module := "registry" }] },
    Agent := { Name := host },
    Results :=
      [{ FoundAnything := true, Success := true,
         Elements := Json.obj
           [("results", Json.arr
              [Json.obj [("hive", Json.str hive), ("key", Json.str key),
                         ("lastwrite", Json.str lastWrite)]])] }],
    Status := "success" }

/-- The JSON of one prefetch record: executable name and execution date. -/
def prefetchJson (nameDate : String × String) : Json :=
  Json.obj [("exename", Json.str nameDate.1), ("execdate", Json.str nameDate.2)]

/-- A successful command of action 7 with one `prefetch` operation whose result
holds the prefetch records `recs` (executable name, execution date). -/
def prefetchBatch (id : Int) (host : String) (recs : List (String × String)) : Command :=
  { ID := id,
    Action := { ID := 7, Operations := [{ Module := "prefetch" }] },
    Agent := { Name := host },
    Results :=
      [{ FoundAnything := true, Success := true,
         Elements := Json.obj [("results", Json.arr (recs.map prefetchJson))] }],
    Status := "success" }

/-- A successful command of action 7 with one operation of module `module`
and the result payload `elements`, whatever its shape. -/
def rawCommand (id : Int) (host module : String) (elements : Json) : Command :=
  { ID := id,
    Action := { ID := 7, Operations := [{ Module := module }] },
    Agent := { Name := host },
    Results := [{ FoundAnything := false, Success := true, Elements := elements }],
    Status := "success" }

/-- One registry identity seen on two hosts: the time of host A does not parse. -/
def registryUnparsed : Timeline :=
  [("Software/Run", [occurrence "A" "registry" "yesterday",
                     occurrence "B" "registry" "2023-01-01 12:00:00Z"])]

/-- One prefetch identity seen on two hosts: the time of host A does not parse. -/
def prefetchUnparsed : Timeline :=
  [("x.exe", [occurrence "A" "prefetch" "2023-01-01T10:00:00",
              occurrence "B" "prefetch" "2023-01-01 12:00:00"])]

/-- Two prefetch commands: the payload of the second is a JSON string, which
does not decode into `PrefetchRecs`. -/
def malformedCommands : List Command :=
  [prefetchCommand 1 "A" "x.exe" "2023-01-01 10:00:00",
   rawCommand 2 "B" "prefetch" (Json.str "garbage")]

/-- Two prefetch commands whose execution dates do not parse: free text and
the empty string. -/
def unparsedCommands : List Command :=
  [prefetchCommand 1 "A" "x.exe" "not a time", prefetchCommand 2 "B" "y.exe" ""]

/-- Host A reports `x.exe`; then host B runs a file search whose payload holds
no search results (an empty JSON object). -/
def emptyFileCommands : List Command :=
  [prefetchCommand 1 "A" "x.exe" "2023-01-01 10:00:00",
   rawCommand 2 "B" "file" (Json.obj [])]

/-- Host B reports `x.exe`, host A reports `y.exe`, then host B reports both
`x.exe` and `y.exe` in one command. -/
def secondArtefactCommands : List Command :=
  [prefetchCommand 1 "B" "x.exe" "2023-01-01 10:00:00",
   prefetchCommand 2 "A" "y.exe" "2023-01-01 11:00:00",
   prefetchBatch 3 "B" [("x.exe", "2023-01-01 12:00:00"), ("y.exe", "2023-01-01 12:30:00")]]

/-- One registry identity seen on hosts A and B, times in the registry layout. -/
def registryTimeline : Timeline :=
  [("Software/Run", [occurrence "A" "registry" "2023-01-01 10:00:00Z",
                     occurrence "B" "registry" "2023-01-01 12:00:00Z"])]

/-- Hosts A and B report the registry key `Software\Run`, A first. -/
def registryCommands : List Command :=
  [registryCommand 1 "A" "HKLM" "Software\\Run" "2023-01-01 10:00:00Z",
   registryCommand 2 "B" "HKLM" "Software\\Run" "2023-01-01 12:00:00Z"]

/-- One prefetch identity seen on hosts A and B within the same second, B
first by eight tenths of a second. -/
def subsecondTimeline : Timeline :=
  [("x.exe", [occurrence "A" "prefetch" "2023-01-01 10:00:00.900000",
              occurrence "B" "prefetch" "2023-01-01 10:00:00.100000"])]

/-- Every occurrence list of the timeline is non-empty and holds registry and
prefetch occurrences only. -/
def registryPrefetchOnly (t : Timeline) : Prop :=
  ∀ kv ∈ t, kv.2 ≠ [] ∧ ∀ e ∈ kv.2, e.Module = "registry" ∨ e.Module = "prefetch"

/-- One prefetch identity seen on one host, with no execution date. -/
def undatedTimeline : Timeline :=
  [("x.exe", [occurrence "A" "prefetch" ""])]

/-- The occurrence `tr` that the timeline loop builds for the artefact value
`v` of the record `curRec` (lines 874-879). -/
def recordOccurrence (curRec : Record) (v : String) : TimeEntry :=
  { ActionID := curRec.ActionID, Agent := curRec.Agent, Module := curRec.Module,
    Status := curRec.Status, Time := v }

/-- Host C reports `C:\Users\mike\Downloads\evil.exe`, then host A reports it,
then host C reports it again, each with another time. -/
def firstReporterCommands : List Command :=
  [fileCommand 1 "C" "search"
     [("C:\\Users\\mike\\Downloads\\evil.exe", "2023-01-01 10:00:00 +0000 UTC")],
   fileCommand 2 "A" "search"
     [("C:\\Users\\Administrator\\Downloads\\evil.exe", "2023-01-01 11:00:00 +0000 UTC")],
   fileCommand 3 "C" "search"
     [("C:\\Users\\mike\\Downloads\\evil.exe", "2023-01-01 12:00:00 +0000 UTC")]]

/-- The record of a successful `file` command of action 7 that holds one file name. -/
def fileRecord (id : Int) (host label name time : String) : Record :=
  { ActionID := 7, CommandID := id, Module := "file", Search := label, Agent := host,
    Status := "success", Artefacts := [(name, time)] }

/-! ## The concrete runtimes satisfy the library contracts -/

theorem insertLeft_perm {α : Type} (less : α → α → Bool) (x : α) (l : List α) :
    (insertLeft less x l).Perm (x :: l) := by
  induction l with
  | nil => simp [insertLeft]
  | cons y ys ih =>
    unfold insertLeft
    split
    · exact (List.Perm.cons y ih).trans (List.Perm.swap x y ys)
    · exact List.Perm.refl _

theorem foldl_insertLeft_perm {α : Type} (less : α → α → Bool) (l acc : List α) :
    (l.foldl (fun sortedRev x => insertLeft less x sortedRev) acc).Perm (l ++ acc) := by
  induction l generalizing acc with
  | nil => simp
  | cons x xs ih =>
    simp only [List.foldl_cons]
    refine (ih _).trans ?_
    refine (List.Perm.append_left xs (insertLeft_perm less x acc)).trans ?_
    simp

theorem insertionSort_perm {α : Type} (less : α → α → Bool) (l : List α) :
    (insertionSort less l).Perm l := by
  unfold insertionSort
  refine (List.reverse_perm _).trans ?_
  simpa using foldl_insertLeft_perm less l []

theorem insertLeft_sorted {α : Type} (key : α → Int) (x : α) (l : List α)
    (h : l.Pairwise (fun a b => key b ≤ key a)) :
    (insertLeft (fun a b => decide (key a < key b)) x l).Pairwise (fun a b => key b ≤ key a) := by
  induction l with
  | nil => simp [insertLeft]
  | cons y ys ih =>
    unfold insertLeft
    have hy := List.pairwise_cons.mp h
    by_cases hxy : key x < key y
    · simp only [hxy, decide_True, if_true]
      refine List.pairwise_cons.mpr ⟨?_, ih hy.2⟩
      intro z hz
      have hz' := (insertLeft_perm _ x ys).mem_iff.mp hz
      rcases List.mem_cons.mp hz' with rfl | hz''
      · exact le_of_lt hxy
      · exact hy.1 z hz''
    · simp only [hxy, decide_False]
      refine List.pairwise_cons.mpr ⟨?_, h⟩
      intro z hz
      rcases List.mem_cons.mp hz with rfl | hz''
      · exact not_lt.mp hxy
      · exact le_trans (hy.1 z hz'') (not_lt.mp hxy)

theorem foldl_insertLeft_sorted {α : Type} (key : α → Int) (l acc : List α)
    (h : acc.Pairwise (fun a b => key b ≤ key a)) :
    (l.foldl (fun sortedRev x => insertLeft (fun a b => decide (key a < key b)) x sortedRev) acc).Pairwise
      (fun a b => key b ≤ key a) := by
  induction l generalizing acc with
  | nil => simpa using h
  | cons x xs ih => exact ih _ (insertLeft_sorted key x acc h)

theorem insertionSort_sorted {α : Type} (key : α → Int) (l : List α) :
    (insertionSort (fun a b => decide (key a < key b)) l).Pairwise (fun a b => key a ≤ key b) := by
  unfold insertionSort
  rw [List.pairwise_reverse]
  exact foldl_insertLeft_sorted key l [] List.Pairwise.nil

theorem goRuntime_valid : goRuntime.Valid :=
  { range_perm := fun _ m => List.Perm.refl m
    sort_perm := fun less l => insertionSort_perm less l
    sort_sorted := fun key l => insertionSort_sorted key l }

theorem goRuntimeRev_valid : goRuntimeRev.Valid :=
  { range_perm := fun _ m => List.reverse_perm m
    sort_perm := fun less l => insertionSort_perm less l
    sort_sorted := fun key l => insertionSort_sorted key l }

/-! ## C1: one occurrence per (identity, host) -/

/-- C1 (behaviour of the code at the failing input): for the three commands
`repeatCommands` (host A, then host B twice, each reporting `x.exe`)
`processResults` returns a timeline whose list for `x.exe` holds two entries of
host B, so the timeline does not keep the hosts of an identity distinct. -/
theorem C1_processResults_repeats_host :
    (processResults goRuntime repeatCommands defaultModules 0).map Prod.snd
        = Except.ok repeatTimeline
      ∧ ¬ hostsDistinct repeatTimeline := by
  refine ⟨by rfl, ?_⟩
  unfold hostsDistinct
  decide

/-! ## Go maps: lemmas -/

theorem GoMap.keys_set {α : Type} (m : GoMap α) (k : String) (v : α) :
    (m.set k v).keys = if k ∈ m.keys then m.keys else m.keys ++ [k] := by
  induction m with
  | nil => simp [GoMap.set, GoMap.keys]
  | cons kv rest ih =>
    obtain ⟨k', v'⟩ := kv
    unfold GoMap.set
    by_cases h : k' = k
    · subst h; simp [GoMap.keys]
    · have h' : ¬ k = k' := fun e => h e.symm
      simp only [GoMap.keys] at ih
      simp only [h, if_false, GoMap.keys, List.map_cons, List.mem_cons, h', false_or, ih]
      split <;> simp

theorem GoMap.get_eq_none {α : Type} (m : GoMap α) (k : String) :
    m.get k = none ↔ k ∉ m.keys := by
  induction m with
  | nil => simp [GoMap.get, GoMap.keys]
  | cons kv rest ih =>
    obtain ⟨k', v'⟩ := kv
    unfold GoMap.get
    by_cases h : k' = k
    · subst h; simp [GoMap.keys]
    · have h' : ¬ k = k' := fun e => h e.symm
      simp only [GoMap.keys] at ih
      simp [h, h', GoMap.keys, ih]

theorem GoMap.get_set_self {α : Type} (m : GoMap α) (k : String) (v : α) :
    (m.set k v).get k = some v := by
  induction m with
  | nil => simp [GoMap.set, GoMap.get]
  | cons kv rest ih =>
    obtain ⟨k', v'⟩ := kv
    unfold GoMap.set
    by_cases h : k' = k
    · simp [h, GoMap.get]
    · simp [h, GoMap.get, ih]

theorem GoMap.get_set_other {α : Type} (m : GoMap α) (k k₂ : String) (v : α) (hne : k ≠ k₂) :
    (m.set k v).get k₂ = m.get k₂ := by
  induction m with
  | nil => simp [GoMap.set, GoMap.get, hne]
  | cons kv rest ih =>
    obtain ⟨k', v'⟩ := kv
    unfold GoMap.set
    by_cases h : k' = k
    · subst h; simp [GoMap.get, hne]
    · by_cases h2 : k' = k₂
      · subst h2; simp [h, GoMap.get]
      · simp [h, h2, GoMap.get, ih]

theorem GoMap.sum_set (m : GoMap Int) (k : String) (v : Int) :
    ((m.set k v).map Prod.snd).sum = (m.map Prod.snd).sum - (m.get k).getD 0 + v := by
  induction m with
  | nil => simp [GoMap.set, GoMap.get]
  | cons kv rest ih =>
    obtain ⟨k', v'⟩ := kv
    unfold GoMap.set GoMap.get
    by_cases h : k' = k
    · simp [h]; ring
    · simp only [h, if_false, List.map_cons, List.sum_cons, ih]; ring

theorem GoMap.keys_nodup_set {α : Type} (m : GoMap α) (k : String) (v : α)
    (h : m.keys.Nodup) : (m.set k v).keys.Nodup := by
  rw [GoMap.keys_set]
  split
  · exact h
  · rename_i hk
    exact List.Nodup.append h (List.nodup_singleton k) (by simpa using hk)

/-! ## whodunnit: lemmas -/

theorem rankArtefact_ok {rt : GoRuntime} {st st' : Ranking} {entry : String × List TimeEntry}
    (h : rankArtefact rt st entry = Except.ok st') :
    ∃ parsed first,
      entry.2.foldlM (parseEntry rt) (st.arts, st.layout) = Except.ok parsed ∧
      index (sortHosts rt st.ranges parsed.1) 0 = Except.ok first ∧
      st' = { arts := parsed.1,
              weights := st.weights.set entry.1 { Name := first.Key, ScoreTime := first.Value },
              layout := parsed.2, ranges := st.ranges + 1 } := by
  unfold rankArtefact at h
  cases hp : entry.2.foldlM (parseEntry rt) (st.arts, st.layout) with
  | error e => simp [hp, bind, Except.bind] at h
  | ok parsed =>
    cases hi : index (sortHosts rt st.ranges parsed.1) 0 with
    | error e => simp [hp, hi, bind, Except.bind] at h
    | ok first =>
      simp [hp, hi, bind, Except.bind, pure, Except.pure] at h
      exact ⟨parsed, first, rfl, hi, h.symm⟩

theorem foldlM_rankArtefact_keys {rt : GoRuntime} (l : List (String × List TimeEntry))
    (st st' : Ranking) (hnd : (st.weights.keys ++ l.map Prod.fst).Nodup)
    (h : l.foldlM (rankArtefact rt) st = Except.ok st') :
    st'.weights.keys = st.weights.keys ++ l.map Prod.fst := by
  induction l generalizing st with
  | nil =>
    simp [pure, Except.pure] at h
    simp [← h]
  | cons entry rest ih =>
    rw [List.foldlM_cons] at h
    cases hr : rankArtefact rt st entry with
    | error e => simp [hr, bind, Except.bind] at h
    | ok st1 =>
      simp only [hr, bind, Except.bind] at h
      obtain ⟨parsed, first, -, -, hst1⟩ := rankArtefact_ok hr
      have hk : st1.weights.keys = st.weights.keys ++ [entry.1] := by
        rw [hst1]
        simp only
        rw [GoMap.keys_set, if_neg]
        intro hmem
        have := List.nodup_append.mp hnd
        exact this.2.2 hmem (by simp)
      have := ih st1 (by rw [hk]; simpa using hnd) h
      rw [this, hk]; simp

theorem countHost_sum (hosts : GoMap Int) (entry : String × HostTime) :
    ((countHost hosts entry).map Prod.snd).sum = (hosts.map Prod.snd).sum + 1 := by
  unfold countHost
  cases hg : hosts.get entry.2.Name with
  | none => simp [GoMap.sum_set, hg]
  | some count => simp [GoMap.sum_set, hg]; ring

theorem foldl_countHost_sum (l : List (String × HostTime)) (hosts : GoMap Int) :
    ((l.foldl countHost hosts).map Prod.snd).sum = (hosts.map Prod.snd).sum + l.length := by
  induction l generalizing hosts with
  | nil => simp
  | cons e rest ih =>
    simp only [List.foldl_cons, ih, countHost_sum, List.length_cons]
    push_cast; ring

theorem sortWeights_scores_perm {rt : GoRuntime} (hrt : rt.Valid) (n : Nat) (hosts : GoMap Int) :
    ((sortWeights rt n hosts).map Weight.Score).Perm (hosts.map Prod.snd) := by
  unfold sortWeights
  refine ((hrt.sort_perm _ _).map _).trans ?_
  rw [List.map_map]
  exact (hrt.range_perm n hosts).map _

theorem whodunnit_ok {rt : GoRuntime} {t : Timeline} {wl : List Weight}
    (h : whodunnit rt t = Except.ok wl) :
    ∃ st, (rt.rangeOrder 0 t).foldlM (rankArtefact rt) {} = Except.ok st ∧
      wl = sortWeights rt (st.ranges + 1) ((rt.rangeOrder st.ranges st.weights).foldl countHost []) := by
  unfold whodunnit at h
  cases hf : (rt.rangeOrder 0 t).foldlM (rankArtefact rt) {} with
  | error e => simp [hf, bind, Except.bind] at h
  | ok st =>
    simp [hf, bind, Except.bind, pure, Except.pure] at h
    exact ⟨st, rfl, h.symm⟩

theorem whodunnit_sum {rt : GoRuntime} (hrt : rt.Valid) {t : Timeline} (hkeys : t.keys.Nodup)
    {wl : List Weight} (h : whodunnit rt t = Except.ok wl) :
    (wl.map Weight.Score).sum = t.keys.length := by
  obtain ⟨st, hf, hwl⟩ := whodunnit_ok h
  have hperm := hrt.range_perm 0 t
  have hk := foldlM_rankArtefact_keys (rt.rangeOrder 0 t) {} st
    (by simpa [GoMap.keys] using (hperm.map Prod.fst).nodup_iff.mpr hkeys) hf
  have hlen : st.weights.length = t.length := by
    have := congrArg List.length hk
    simpa [GoMap.keys, hperm.length_eq] using this
  rw [hwl, (sortWeights_scores_perm hrt _ _).sum_eq, foldl_countHost_sum]
  simp [GoMap.keys, (hrt.range_perm st.ranges st.weights).length_eq, hlen]

theorem GoMap.set_ne_nil {α : Type} (m : GoMap α) (k : String) (v : α) : m.set k v ≠ [] := by
  cases m with
  | nil => simp [GoMap.set]
  | cons kv rest =>
    obtain ⟨k', v'⟩ := kv
    unfold GoMap.set
    split <;> simp

theorem switchLayout_known {module : String} (h : knownModule module) (layout : String) :
    switchLayout module layout = switchLayout module "" := by
  rcases h with h | h | h <;> subst h <;> simp [switchLayout]

theorem parseEntry_ok {rt : GoRuntime} (arts : GoMap Time) (layout : String) (e : TimeEntry)
    (hm : knownModule e.Module) (ht : (occurrenceTime rt e).isSome = true) :
    ∃ t layout', parseEntry rt (arts, layout) e = Except.ok (arts.set e.Agent t, layout') := by
  unfold parseEntry
  unfold occurrenceTime at ht
  simp only [switchLayout_known hm layout]
  cases hp : rt.parse (switchLayout e.Module "") e.Time with
  | some t => exact ⟨t, _, rfl⟩
  | none =>
    simp only [hp] at ht
    by_cases hf : e.Module = "file"
    · simp only [hf, if_true] at ht ⊢
      cases hp2 : rt.parse "2006-01-02 15:04:05" e.Time with
      | some t => exact ⟨t, _, rfl⟩
      | none => simp [hp2] at ht
    · simp [hf] at ht

theorem foldlM_parseEntry_ok {rt : GoRuntime} (es : List TimeEntry) (arts : GoMap Time)
    (layout : String)
    (h : ∀ e ∈ es, knownModule e.Module ∧ (occurrenceTime rt e).isSome = true) :
    ∃ arts' layout', es.foldlM (parseEntry rt) (arts, layout) = Except.ok (arts', layout') ∧
      (es ≠ [] ∨ arts ≠ [] → arts' ≠ []) := by
  induction es generalizing arts layout with
  | nil => exact ⟨arts, layout, rfl, by simp⟩
  | cons e rest ih =>
    obtain ⟨t, layout1, h1⟩ := parseEntry_ok arts layout e (h e (by simp)).1 (h e (by simp)).2
    obtain ⟨arts', layout', h2, hne⟩ := ih (arts.set e.Agent t) layout1
      (fun e' he' => h e' (List.mem_cons_of_mem _ he'))
    refine ⟨arts', layout', ?_, fun _ => hne (Or.inr (GoMap.set_ne_nil _ _ _))⟩
    rw [List.foldlM_cons, h1]
    exact h2

theorem sortHosts_perm {rt : GoRuntime} (hrt : rt.Valid) (n : Nat) (times : GoMap Time) :
    (sortHosts rt n times).Perm (times.map fun kv => { Key := kv.1, Value := kv.2 }) := by
  unfold sortHosts
  exact (hrt.sort_perm _ _).trans ((hrt.range_perm n times).map _)

theorem index_zero_ok {α : Type} (xs : List α) (h : xs ≠ []) : ∃ x, index xs 0 = Except.ok x := by
  cases xs with
  | nil => exact absurd rfl h
  | cons x rest => exact ⟨x, by simp [index]⟩

theorem rankArtefact_total {rt : GoRuntime} (hrt : rt.Valid) (st : Ranking)
    (entry : String × List TimeEntry)
    (h : ∀ e ∈ entry.2, knownModule e.Module ∧ (occurrenceTime rt e).isSome = true)
    (hne : entry.2 ≠ [] ∨ st.arts ≠ []) :
    ∃ st', rankArtefact rt st entry = Except.ok st' ∧ st'.arts ≠ [] := by
  obtain ⟨arts', layout', hp, hne'⟩ := foldlM_parseEntry_ok entry.2 st.arts st.layout h
  have hs : sortHosts rt st.ranges arts' ≠ [] := by
    intro hnil
    have := (sortHosts_perm hrt st.ranges arts').length_eq
    rw [hnil] at this
    simp at this
    exact hne' hne (List.length_eq_zero.mp this.symm)
  obtain ⟨first, hi⟩ := index_zero_ok _ hs
  refine ⟨{ arts := arts',
            weights := st.weights.set entry.1 { Name := first.Key, ScoreTime := first.Value },
            layout := layout', ranges := st.ranges + 1 }, ?_, hne' hne⟩
  unfold rankArtefact
  simp only [hp, hi, bind, Except.bind, pure, Except.pure]

theorem foldlM_rankArtefact_total {rt : GoRuntime} (hrt : rt.Valid)
    (l : List (String × List TimeEntry)) (st : Ranking)
    (h : ∀ kv ∈ l, ∀ e ∈ kv.2, knownModule e.Module ∧ (occurrenceTime rt e).isSome = true)
    (hne : ∀ kv ∈ l, kv.2 ≠ []) :
    ∃ st', l.foldlM (rankArtefact rt) st = Except.ok st' := by
  induction l generalizing st with
  | nil => exact ⟨st, rfl⟩
  | cons entry rest ih =>
    obtain ⟨st1, h1, -⟩ := rankArtefact_total hrt st entry (h entry (by simp))
      (Or.inl (hne entry (by simp)))
    obtain ⟨st', h2⟩ := ih st1 (fun kv hkv => h kv (List.mem_cons_of_mem _ hkv))
      (fun kv hkv => hne kv (List.mem_cons_of_mem _ hkv))
    exact ⟨st', by rw [List.foldlM_cons, h1]; exact h2⟩

theorem whodunnit_total {rt : GoRuntime} (hrt : rt.Valid) (t : Timeline)
    (hp : timesParse rt t) (hne : ∀ kv ∈ t, kv.2 ≠ []) :
    ∃ wl, whodunnit rt t = Except.ok wl := by
  have hperm := hrt.range_perm 0 t
  obtain ⟨st, hst⟩ := foldlM_rankArtefact_total hrt (rt.rangeOrder 0 t) {}
    (fun kv hkv => hp kv (hperm.mem_iff.mp hkv)) (fun kv hkv => hne kv (hperm.mem_iff.mp hkv))
  exact ⟨_, by unfold whodunnit; rw [hst]; rfl⟩

/-! ## C2, C3: the scores -/

/-- C2 (behaviour of the code at the failing input): on the timeline
`twoArtefacts` (x.exe seen on host A only, y.exe seen later on host B only; all
times parse and are distinct), visited in the order x.exe, y.exe, `whodunnit`
returns the ranking A: 2 without host B, although each of A and B holds the
earliest (the only) occurrence of exactly one identity. -/
theorem C2_whodunnit_credits_stale_host :
    timesParse goRuntime twoArtefacts ∧ timesDistinct goRuntime twoArtefacts ∧
      whodunnit goRuntime twoArtefacts = Except.ok [{ Name := "A", Score := 2 }] ∧
      earliestCount goRuntime twoArtefacts "A" = 1 ∧
      earliestCount goRuntime twoArtefacts "B" = 1 := by
  refine ⟨?_, ?_, by rfl, by rfl, by rfl⟩
  · unfold timesParse; decide
  · unfold timesDistinct; decide

/-- C3: for every runtime that meets the library contracts and every timeline
(a map: its keys are pairwise distinct), whenever `whodunnit` returns a ranking
the scores of the ranking add up to the number of artefact identities of the
timeline; and `whodunnit` does return a ranking when every occurrence list is
non-empty and every time string parses. -/
theorem C3_scores_sum_to_identity_count (rt : GoRuntime) (hrt : rt.Valid) (t : Timeline)
    (hkeys : t.keys.Nodup) :
    (∀ wl, whodunnit rt t = Except.ok wl → (wl.map Weight.Score).sum = t.keys.length) ∧
      (timesParse rt t → (∀ kv ∈ t, kv.2 ≠ []) → ∃ wl, whodunnit rt t = Except.ok wl) :=
  ⟨fun _ h => whodunnit_sum hrt hkeys h, fun hp hne => whodunnit_total hrt t hp hne⟩

/-- C3 at the timeline `threeArtefacts`: the ranking is B: 1, A: 2 and the
scores add up to the three identities. -/
theorem C3_scores_sum_witness :
    goRuntime.Valid ∧ threeArtefacts.keys.Nodup ∧
      whodunnit goRuntime threeArtefacts
        = Except.ok [{ Name := "B", Score := 1 }, { Name := "A", Score := 2 }] ∧
      (([{ Name := "B", Score := 1 }, { Name := "A", Score := 2 }] : List Weight).map
        Weight.Score).sum = threeArtefacts.keys.length :=
  ⟨goRuntime_valid, by decide, by rfl,
    (C3_scores_sum_to_identity_count goRuntime goRuntime_valid threeArtefacts (by decide)).1 _
      (by rfl)⟩

/-! ## C4, C5, C6: the ranking -/

theorem sortWeights_ascending {rt : GoRuntime} (hrt : rt.Valid) (n : Nat) (hosts : GoMap Int) :
    sortedAscending (sortWeights rt n hosts) :=
  hrt.sort_sorted Weight.Score _

theorem countHost_pos (hosts : GoMap Int) (entry : String × HostTime)
    (h : ∀ kv ∈ hosts, 1 ≤ kv.2) : ∀ kv ∈ countHost hosts entry, 1 ≤ kv.2 := by
  have hset : ∀ (m : GoMap Int) (k : String) (v : Int), 1 ≤ v → (∀ kv ∈ m, 1 ≤ kv.2) →
      ∀ kv ∈ m.set k v, 1 ≤ kv.2 := by
    intro m k v hv
    induction m with
    | nil => intro _ kv hkv; simp [GoMap.set] at hkv; subst hkv; exact hv
    | cons kv' rest ih =>
      obtain ⟨k', v'⟩ := kv'
      intro hm kv hkv
      unfold GoMap.set at hkv
      by_cases hk : k' = k
      · simp only [hk, if_true, List.mem_cons] at hkv
        rcases hkv with rfl | hkv
        · exact hv
        · exact hm kv (List.mem_cons_of_mem _ hkv)
      · simp only [hk, if_false, List.mem_cons] at hkv
        rcases hkv with rfl | hkv
        · exact hm _ (List.mem_cons_self _ _)
        · exact ih (fun kv hkv => hm kv (List.mem_cons_of_mem _ hkv)) kv hkv
  unfold countHost
  cases hg : hosts.get entry.2.Name with
  | none => exact hset hosts _ 1 le_rfl h
  | some count =>
    refine hset hosts _ (count + 1) ?_ h
    have hmem : ∀ (m : GoMap Int) (k : String) (c : Int), m.get k = some c → (k, c) ∈ m := by
      intro m k c
      induction m with
      | nil => simp [GoMap.get]
      | cons kv' rest ih =>
        obtain ⟨k', v'⟩ := kv'
        unfold GoMap.get
        by_cases hk : k' = k
        · simp only [hk, if_true, Option.some.injEq]
          rintro rfl; exact List.mem_cons_self _ _
        · simp only [hk, if_false]
          exact fun hc => List.mem_cons_of_mem _ (ih hc)
    have := h _ (hmem hosts _ count hg)
    simp at this
    omega

theorem foldl_countHost_pos (l : List (String × HostTime)) (hosts : GoMap Int)
    (h : ∀ kv ∈ hosts, 1 ≤ kv.2) : ∀ kv ∈ l.foldl countHost hosts, 1 ≤ kv.2 := by
  induction l generalizing hosts with
  | nil => simpa using h
  | cons e rest ih => exact ih _ (countHost_pos hosts e h)

theorem whodunnit_scores_pos {rt : GoRuntime} (hrt : rt.Valid) {t : Timeline} {wl : List Weight}
    (h : whodunnit rt t = Except.ok wl) : ∀ w ∈ wl, 1 ≤ w.Score := by
  obtain ⟨st, -, hwl⟩ := whodunnit_ok h
  intro w hw
  rw [hwl] at hw
  unfold sortWeights at hw
  have hw' := (hrt.sort_perm _ _).mem_iff.mp hw
  obtain ⟨kv, hkv, rfl⟩ := List.mem_map.mp hw'
  have hkv' := (hrt.range_perm _ _).mem_iff.mp hkv
  exact foldl_countHost_pos _ [] (by simp) kv hkv'

theorem valid_range_singleton {rt : GoRuntime} (hrt : rt.Valid) {α : Type} (n : Nat)
    (kv : String × α) : rt.rangeOrder n [kv] = [kv] :=
  List.perm_singleton.mp (hrt.range_perm n [kv])

theorem valid_sort_singleton {rt : GoRuntime} (hrt : rt.Valid) {α : Type} (less : α → α → Bool)
    (x : α) : rt.sort less [x] = [x] :=
  List.perm_singleton.mp (hrt.sort_perm less [x])

/-- On a timeline of one identity the ranking is the first host of `sortHosts`, with score 1. -/
theorem whodunnit_single {rt : GoRuntime} (hrt : rt.Valid) (art : String) (occs : List TimeEntry)
    {parsed : GoMap Time × String} (first : Pair)
    (hp : occs.foldlM (parseEntry rt) ([], "") = Except.ok parsed)
    (hi : index (sortHosts rt 1 parsed.1) 0 = Except.ok first) :
    whodunnit rt [(art, occs)] = Except.ok [{ Name := first.Key, Score := 1 }] := by
  unfold whodunnit
  rw [valid_range_singleton hrt]
  simp only [List.foldlM_cons, List.foldlM_nil, rankArtefact, hp, hi, bind, Except.bind, pure,
    Except.pure, GoMap.set]
  rw [valid_range_singleton hrt]
  simp only [List.foldl_cons, List.foldl_nil, countHost, GoMap.get, GoMap.set, sortWeights]
  rw [valid_range_singleton hrt]
  simp [valid_sort_singleton hrt]

theorem perm_pair {α : Type} [DecidableEq α] {l : List α} {x y : α} (h : l.Perm [x, y]) :
    l = [x, y] ∨ l = [y, x] := by
  have hlen := h.length_eq
  match l, hlen with
  | [p, q], _ =>
    have h' := List.cons_perm_iff_perm_erase.mp h
    obtain ⟨hp, hq⟩ := h'
    simp only [List.mem_cons, List.mem_singleton, List.not_mem_nil, or_false] at hp
    rcases hp with rfl | rfl
    · simp only [List.erase_cons_head] at hq
      have := List.perm_singleton.mp hq
      simp at this; subst this; exact Or.inl rfl
    · by_cases hxy : x = p
      · subst hxy
        simp only [List.erase_cons_head] at hq
        have := List.perm_singleton.mp hq
        simp at this; subst this; exact Or.inl rfl
      · have he : [x, p].erase p = [x] := by
          simp [List.erase_cons, hxy]
        rw [he] at hq
        have := List.perm_singleton.mp hq
        simp at this; subst this; exact Or.inr rfl

/-- The parsing loop of `whodunnit` on the two occurrences of `sharedArtefact`. -/
theorem parse_sharedArtefact (rt : GoRuntime) (hostA timeA hostB timeB : String) (a b : Time)
    (hne : hostA ≠ hostB)
    (ha : rt.parse "2006-01-02 15:04:05.999999" timeA = some a)
    (hb : rt.parse "2006-01-02 15:04:05.999999" timeB = some b) :
    [occurrence hostA "prefetch" timeA, occurrence hostB "prefetch" timeB].foldlM
        (parseEntry rt) ([], "")
      = Except.ok ([(hostA, a), (hostB, b)], "2006-01-02 15:04:05.999999") := by
  simp [List.foldlM_cons, parseEntry, occurrence, switchLayout, ha, hb, GoMap.set, hne, bind,
    Except.bind, pure, Except.pure]

/-- The result of `sortHosts` on a map of two hosts. -/
theorem sortHosts_pair {rt : GoRuntime} (hrt : rt.Valid) (n : Nat) (hostA hostB : String)
    (a b : Time) :
    (sortHosts rt n [(hostA, a), (hostB, b)] = [⟨hostA, a⟩, ⟨hostB, b⟩] ∨
      sortHosts rt n [(hostA, a), (hostB, b)] = [⟨hostB, b⟩, ⟨hostA, a⟩]) ∧
    (sortHosts rt n [(hostA, a), (hostB, b)]).Pairwise (fun p q => p.Value ≤ q.Value) :=
  ⟨perm_pair (by simpa using sortHosts_perm hrt n [(hostA, a), (hostB, b)]),
    hrt.sort_sorted Pair.Value _⟩

/-- C4 (counterexample): on `threeArtefacts` the returned ranking is B: 1
followed by A: 2, which is not ordered by descending score. -/
theorem C4_ranking_not_descending :
    whodunnit goRuntime threeArtefacts
        = Except.ok [{ Name := "B", Score := 1 }, { Name := "A", Score := 2 }] ∧
      ¬ sortedDescending [{ Name := "B", Score := 1 }, { Name := "A", Score := 2 }] := by
  refine ⟨by rfl, ?_⟩
  unfold sortedDescending
  decide

/-- C4 (amended): for every runtime that meets the library contracts, the list
built by `sortWeights`, and so every ranking that `whodunnit` returns, is
ordered by ascending score (each score is at most the scores after it); and
`whodunnit` returns such a ranking when every occurrence list is non-empty and
every time string parses. -/
theorem C4_ranking_ascending (rt : GoRuntime) (hrt : rt.Valid) (t : Timeline) :
    (∀ n hosts, sortedAscending (sortWeights rt n hosts)) ∧
      (∀ wl, whodunnit rt t = Except.ok wl → sortedAscending wl) ∧
      (timesParse rt t → (∀ kv ∈ t, kv.2 ≠ []) →
        ∃ wl, whodunnit rt t = Except.ok wl ∧ sortedAscending wl) := by
  have hasc : ∀ wl, whodunnit rt t = Except.ok wl → sortedAscending wl := by
    intro wl h
    obtain ⟨st, -, hwl⟩ := whodunnit_ok h
    rw [hwl]
    exact sortWeights_ascending hrt _ _
  refine ⟨fun n hosts => sortWeights_ascending hrt n hosts, hasc, fun hp hne => ?_⟩
  obtain ⟨wl, hwl⟩ := whodunnit_total hrt t hp hne
  exact ⟨wl, hwl, hasc wl hwl⟩

/-- C4 (amended) at the timeline `threeArtefacts`. -/
theorem C4_ranking_ascending_witness :
    goRuntime.Valid ∧ timesParse goRuntime threeArtefacts ∧ (∀ kv ∈ threeArtefacts, kv.2 ≠ []) ∧
      ∃ wl, whodunnit goRuntime threeArtefacts = Except.ok wl ∧ sortedAscending wl :=
  ⟨goRuntime_valid, by unfold timesParse; decide, by decide,
    (C4_ranking_ascending goRuntime goRuntime_valid threeArtefacts).2.2
      (by unfold timesParse; decide) (by decide)⟩

/-- C5 (counterexample): in the scenario of the specification, with the times
written in the layout of the prefetch module, the ranking is A: 1 alone and
host B, which has an occurrence, has no entry (not an entry with score 0); with
the times written as in the specification (`T` between date and time) no time
parses and `whodunnit` panics on `pl[0]`. -/
theorem C5_uncredited_host_is_absent :
    whodunnit goRuntime
        (sharedArtefact "malware.exe" "A" "2023-01-01 10:00:00" "B" "2023-01-01 12:00:00")
        = Except.ok [{ Name := "A", Score := 1 }] ∧
      scoreOf [{ Name := "A", Score := 1 }] "B" = none ∧
      whodunnit goRuntime
        (sharedArtefact "malware.exe" "A" "2023-01-01T10:00:00" "B" "2023-01-01T12:00:00")
        = Except.error Panic.indexOutOfRange :=
  ⟨by rfl, by rfl, by rfl⟩

/-- C5 (amended): for every runtime that meets the library contracts, every
entry of a ranking returned by `whodunnit` has a score of at least 1, so a host
that is credited for no identity has no entry; and for one prefetch identity
seen on host A and later on host B (both times parse) the ranking is A: 1
alone. -/
theorem C5_ranking_lists_credited_hosts (rt : GoRuntime) (hrt : rt.Valid)
    (art hostA timeA hostB timeB : String) (a b : Time) (hne : hostA ≠ hostB)
    (ha : rt.parse "2006-01-02 15:04:05.999999" timeA = some a)
    (hb : rt.parse "2006-01-02 15:04:05.999999" timeB = some b) (hlt : a < b) :
    (∀ t wl, whodunnit rt t = Except.ok wl → ∀ w ∈ wl, 1 ≤ w.Score) ∧
      whodunnit rt (sharedArtefact art hostA timeA hostB timeB)
        = Except.ok [{ Name := hostA, Score := 1 }] ∧
      scoreOf [{ Name := hostA, Score := 1 }] hostB = none := by
  refine ⟨fun t wl h => whodunnit_scores_pos hrt h, ?_, ?_⟩
  · have hp := parse_sharedArtefact rt hostA timeA hostB timeB a b hne ha hb
    obtain ⟨hcases, hsorted⟩ := sortHosts_pair hrt 1 hostA hostB a b
    have hfirst : sortHosts rt 1 [(hostA, a), (hostB, b)] = [⟨hostA, a⟩, ⟨hostB, b⟩] := by
      rcases hcases with h | h
      · exact h
      · rw [h] at hsorted
        simp only [List.pairwise_cons, List.mem_singleton, forall_eq] at hsorted
        exact absurd hsorted.1 (not_le.mpr hlt)
    exact whodunnit_single hrt art _ ⟨hostA, a⟩ hp (by simp [hfirst, index])
  · simp [scoreOf, hne]

/-- C5 (amended) in the scenario of the specification, times in the prefetch layout. -/
theorem C5_ranking_lists_credited_hosts_witness :
    goRuntime.Valid ∧ "A" ≠ "B" ∧
      whodunnit goRuntime
        (sharedArtefact "malware.exe" "A" "2023-01-01 10:00:00" "B" "2023-01-01 12:00:00")
        = Except.ok [{ Name := "A", Score := 1 }] :=
  ⟨goRuntime_valid, by decide,
    (C5_ranking_lists_credited_hosts goRuntime goRuntime_valid "malware.exe"
      "A" "2023-01-01 10:00:00" "B" "2023-01-01 12:00:00"
      65020874400000000000 65020881600000000000 (by decide) (by rfl) (by rfl) (by decide)).2.1⟩

/-- C6 (counterexample): hosts D and E hold `malware.exe` with the same
earliest time; a runtime that visits maps in insertion order credits D, one
that visits them in the opposite order credits E, and both runtimes meet the
library contracts. -/
theorem C6_winner_depends_on_range_order :
    goRuntime.Valid ∧ goRuntimeRev.Valid ∧
      whodunnit goRuntime
        (sharedArtefact "malware.exe" "D" "2023-01-01 10:00:00" "E" "2023-01-01 10:00:00")
        = Except.ok [{ Name := "D", Score := 1 }] ∧
      whodunnit goRuntimeRev
        (sharedArtefact "malware.exe" "D" "2023-01-01 10:00:00" "E" "2023-01-01 10:00:00")
        = Except.ok [{ Name := "E", Score := 1 }] :=
  ⟨goRuntime_valid, goRuntimeRev_valid, by rfl, by rfl⟩

/-- C6 (amended): when two hosts D and E hold the same prefetch identity with
the same time string, which parses, `whodunnit` returns a ranking that credits
exactly one of them (D: 1 alone or E: 1 alone) for every runtime that meets the
library contracts; which of the two is left to the runtime. -/
theorem C6_tie_credits_one_host (rt : GoRuntime) (hrt : rt.Valid)
    (art hostD hostE time : String) (a : Time) (hne : hostD ≠ hostE)
    (ha : rt.parse "2006-01-02 15:04:05.999999" time = some a) :
    whodunnit rt (sharedArtefact art hostD time hostE time)
        = Except.ok [{ Name := hostD, Score := 1 }] ∨
      whodunnit rt (sharedArtefact art hostD time hostE time)
        = Except.ok [{ Name := hostE, Score := 1 }] := by
  have hp := parse_sharedArtefact rt hostD time hostE time a a hne ha ha
  rcases (sortHosts_pair hrt 1 hostD hostE a a).1 with h | h
  · exact Or.inl (whodunnit_single hrt art _ ⟨hostD, a⟩ hp (by simp [h, index]))
  · exact Or.inr (whodunnit_single hrt art _ ⟨hostE, a⟩ hp (by simp [h, index]))

/-- C6 (amended) for hosts D and E at `2023-01-01 10:00:00`. -/
theorem C6_tie_credits_one_host_witness :
    goRuntimeRev.Valid ∧ "D" ≠ "E" ∧
      (whodunnit goRuntimeRev
          (sharedArtefact "malware.exe" "D" "2023-01-01 10:00:00" "E" "2023-01-01 10:00:00")
          = Except.ok [{ Name := "D", Score := 1 }] ∨
        whodunnit goRuntimeRev
          (sharedArtefact "malware.exe" "D" "2023-01-01 10:00:00" "E" "2023-01-01 10:00:00")
          = Except.ok [{ Name := "E", Score := 1 }]) :=
  ⟨goRuntimeRev_valid, by decide,
    C6_tie_credits_one_host goRuntimeRev goRuntimeRev_valid "malware.exe" "D" "E"
      "2023-01-01 10:00:00" 65020874400000000000 (by decide) (by rfl)⟩

/-! ## C7, C8: first occurrence wins -/

/-- C7 (counterexample): host C reports `C:\Users\mike\Downloads\evil.exe`
twice in the results of one command, first with time 10:00:00, then with
12:00:00; the timeline keeps one occurrence under `USER/Downloads/evil.exe`,
and it carries the second time, not the first. -/
theorem C7_same_command_keeps_last_time :
    (processResults goRuntime
        [fileCommand 1 "C" "search"
          [("C:\\Users\\mike\\Downloads\\evil.exe", "2023-01-01 10:00:00 +0000 UTC"),
           ("C:\\Users\\mike\\Downloads\\evil.exe", "2023-01-01 12:00:00 +0000 UTC")]]
        defaultModules 0).map Prod.snd
      = Except.ok [("USER/Downloads/evil.exe",
          [occurrence "C" "file" "2023-01-01 12:00:00 +0000 UTC"])] := by
  rfl

theorem unmarshal_fileCommand (label : String) (files : List (String × String)) :
    unmarshalSearchResults (Json.obj [(label, Json.arr (files.map matchedFileJson))])
      = [(label, files.map fun pt => { File := pt.1, FileInfo := { Mtime := pt.2 } })] := by
  simp [unmarshalSearchResults, decodeMap, decodeSlice, GoMap.set, List.map_map]
  intro a b _
  simp [matchedFileJson, decodeMatchedfile, decodeFileinfo, decodeString, GoMap.get]

/-- The record that the first loop of `processResults` appends for a `fileCommand`. -/
theorem processCommand_fileCommand {rt : GoRuntime} (hrt : rt.Valid) (st : Decoding) (id : Int)
    (host label : String) (files : List (String × String)) (arts : GoMap String)
    (harts : (files.map fun pt => ({ File := pt.1, FileInfo := { Mtime := pt.2 } } : matchedfile)).foldlM
      fileArtefact [] = Except.ok arts) :
    processCommand rt defaultModules 0 st (fileCommand id host label files)
      = Except.ok
          { record := { ActionID := 7, CommandID := id, Module := "file", Search := label,
                        Agent := host, Status := "success", Artefacts := arts },
            records := st.records ++
              [{ ActionID := 7, CommandID := id, Module := "file", Search := label,
                 Agent := host, Status := "success", Artefacts := arts }],
            ranges := st.ranges + 1 } := by
  have hrange : List.range 1 = [0] := rfl
  simp [processCommand, fileCommand, defaultModules, hrange, processModule, index, bind,
    Except.bind, pure, Except.pure, fileCase, unmarshal_fileCommand,
    valid_range_singleton hrt, harts]

theorem foldl_scanEntry_found (k : String) (Times : List TimeEntry) (tr : TimeEntry)
    (l : List TimeEntry) (t : Timeline) :
    l.foldl (scanEntry k Times tr) (true, t) = (true, t) := by
  induction l with
  | nil => rfl
  | cons e rest ih => simpa [scanEntry] using ih

/-- The insertion step is a no-op when the first entry of the identity's list
belongs to the host of the record. -/
theorem addArtefact_head_host (curRec : Record) (found : Bool) (t : Timeline) (name v : String)
    (e : TimeEntry) (rest : List TimeEntry) (hname : name ≠ "")
    (hget : t.get (stringsReplace name) = some (e :: rest)) (hhost : e.Agent = curRec.Agent) :
    addArtefact curRec (found, t) (name, v) = (true, t) := by
  simp [addArtefact, hname, hget, scanEntry, hhost, foldl_scanEntry_found]

/-- A run of two file commands of one host that report the same path keeps
one occurrence, with the time of the first command; a run of one file command
that lists the path twice under one search label keeps one occurrence, with the
time listed last; and the insertion step leaves the timeline unchanged whenever
the first entry of the identity's list belongs to the inserting host.  Here `f`
is the `FileName` computed from the path. -/
theorem processResults_fileCommand_twice (rt : GoRuntime) (hrt : rt.Valid) (id₁ id₂ : Int)
    (host label₁ label₂ path time₁ time₂ f : String)
    (hf : fileName path = Except.ok f) (hne : f ≠ "") :
    (processResults rt
        [fileCommand id₁ host label₁ [(path, time₁)], fileCommand id₂ host label₂ [(path, time₂)]]
        defaultModules 0).map Prod.snd
        = Except.ok [(stringsReplace f, [occurrence host "file" time₁])] ∧
      (processResults rt [fileCommand id₁ host label₁ [(path, time₁), (path, time₂)]]
        defaultModules 0).map Prod.snd
        = Except.ok [(stringsReplace f, [occurrence host "file" time₂])] ∧
      (∀ (curRec : Record) (found : Bool) (t : Timeline) (v : String) (e : TimeEntry)
          (rest : List TimeEntry),
        t.get (stringsReplace f) = some (e :: rest) → e.Agent = curRec.Agent →
          addArtefact curRec (found, t) (f, v) = (true, t)) := by
  have h1 : ∀ t : String,
      ([(path, t)].map fun pt => ({ File := pt.1, FileInfo := { Mtime := pt.2 } } : matchedfile)).foldlM
        fileArtefact [] = Except.ok [(f, t)] := by
    intro t
    simp [fileArtefact, hf, bind, Except.bind, pure, Except.pure, GoMap.set]
  have h2 :
      ([(path, time₁), (path, time₂)].map fun pt =>
          ({ File := pt.1, FileInfo := { Mtime := pt.2 } } : matchedfile)).foldlM
        fileArtefact [] = Except.ok [(f, time₂)] := by
    simp [fileArtefact, hf, bind, Except.bind, pure, Except.pure, GoMap.set]
  refine ⟨?_, ?_, fun curRec found t v e rest hget hhost =>
    addArtefact_head_host curRec found t f v e rest hne hget hhost⟩
  · unfold processResults
    simp only [List.foldlM_cons, List.foldlM_nil,
      processCommand_fileCommand hrt _ _ _ _ _ _ (h1 _), bind, Except.bind, pure, Except.pure,
      Except.map]
    simp [buildTimeline, addRecord, valid_range_singleton hrt, addArtefact, hne, GoMap.get,
      GoMap.set, scanEntry, occurrence]
  · unfold processResults
    simp only [List.foldlM_cons, List.foldlM_nil,
      processCommand_fileCommand hrt _ _ _ _ _ _ h2, bind, Except.bind, pure, Except.pure,
      Except.map]
    simp [buildTimeline, addRecord, valid_range_singleton hrt, addArtefact, hne, GoMap.get,
      GoMap.set, occurrence]

/-- C8 (behaviour of the code at the failing input): the list of `x.exe` holds
host A, then host B; inserting a further occurrence of host B (the artefact of
a record of host B, `found` being false at the start of the record) appends a
second entry for B: the timeline changes and the list grows from 2 to 3. -/
theorem C8_reinsert_appends_duplicate :
    addArtefact
        { ActionID := 7, CommandID := 3, Module := "prefetch", Agent := "B", Status := "success",
          Artefacts := [("x.exe", "2023-01-01 12:00:00")] }
        (false,
          [("x.exe", [occurrence "A" "prefetch" "2023-01-01 10:00:00",
                      occurrence "B" "prefetch" "2023-01-01 11:00:00"])])
        ("x.exe", "2023-01-01 12:00:00")
      = (true,
          [("x.exe", [occurrence "A" "prefetch" "2023-01-01 10:00:00",
                      occurrence "B" "prefetch" "2023-01-01 11:00:00",
                      occurrence "B" "prefetch" "2023-01-01 12:00:00"])]) := by
  rfl

/-! ## C9, C10: the identity of a file artefact -/

theorem splitChars_ne_nil (sep : Char) (l : List Char) : splitChars sep l ≠ [] := by
  cases l with
  | nil => simp [splitChars]
  | cons c cs =>
    unfold splitChars
    split
    · simp
    · split <;> simp

theorem splitChars_no_sep (sep : Char) (l : List Char) : ∀ seg ∈ splitChars sep l, sep ∉ seg := by
  induction l with
  | nil => simp [splitChars]
  | cons c cs ih =>
    unfold splitChars
    by_cases hc : c = sep
    · simp only [hc, if_true, List.mem_cons]
      rintro seg (rfl | hseg)
      · simp
      · exact ih seg hseg
    · simp only [hc, if_false]
      cases hs : splitChars sep cs with
      | nil => exact absurd hs (splitChars_ne_nil sep cs)
      | cons seg segs =>
        rw [hs] at ih
        simp only [List.mem_cons]
        rintro s (rfl | hs')
        · simp only [List.mem_cons, not_or]
          exact ⟨fun e => hc e.symm, ih seg (List.mem_cons_self _ _)⟩
        · exact ih s (List.mem_cons_of_mem _ hs')

theorem stringsSplit_ne_nil (s : String) : stringsSplit s ≠ [] := by
  unfold stringsSplit
  simpa using splitChars_ne_nil '\\' s.data

theorem stringsSplit_no_backslash (s : String) : ∀ seg ∈ stringsSplit s, '\\' ∉ seg.data := by
  unfold stringsSplit
  intro seg hseg
  obtain ⟨l, hl, rfl⟩ := List.mem_map.mp hseg
  exact splitChars_no_sep '\\' s.data l hl

theorem stringsReplace_of_no_backslash (s : String) (h : '\\' ∉ s.data) : stringsReplace s = s := by
  unfold stringsReplace
  have : s.data.map (fun c => if c = '\\' then '/' else c) = s.data := by
    conv_rhs => rw [← List.map_id s.data]
    apply List.map_congr_left
    intro c hc
    have : c ≠ '\\' := fun e => h (e ▸ hc)
    simp [this]
  rw [this]

theorem stringsReplace_append (s t : String) :
    stringsReplace (s ++ t) = stringsReplace s ++ stringsReplace t := by
  apply String.ext
  simp [stringsReplace, String.data_append]

theorem stringsReplace_backslash : stringsReplace "\\" = "/" := by rfl

theorem index_natCast {α : Type} (xs : List α) (i : Nat) : index xs (i : Int) = match xs.get? i with
    | some x => Except.ok x
    | none => Except.error Panic.indexOutOfRange := by
  unfold index
  simp

theorem foldl_scanEntry_get (k : String) (Times : List TimeEntry) (tr : TimeEntry)
    (l : List TimeEntry) (st : Bool × Timeline) (h : (st.2.get k).isSome = true) :
    ((l.foldl (scanEntry k Times tr) st).2.get k).isSome = true := by
  induction l generalizing st with
  | nil => simpa using h
  | cons e rest ih =>
    simp only [List.foldl_cons]
    apply ih
    unfold scanEntry
    dsimp only
    split_ifs <;> first | exact h | simp [GoMap.get_set_self]

/-- After the insertion step for an artefact with a non-empty name, the
normalised name is a key of the timeline. -/
theorem addArtefact_key (curRec : Record) (st : Bool × Timeline) (k v : String) (hk : k ≠ "") :
    ((addArtefact curRec st (k, v)).2.get (stringsReplace k)).isSome = true := by
  by_cases hlen : ((st.2.get (stringsReplace k)).getD []).length = 0
  · simp [addArtefact, hk, hlen, GoMap.get_set_self]
  · simp only [addArtefact, hk, ne_eq, not_false_eq_true, if_true, hlen, if_false]
    apply foldl_scanEntry_get
    cases hg : GoMap.get st.2 (stringsReplace k) with
    | none => simp [hg] at hlen
    | some x => simp

theorem get?_append_three {α : Type} (pre : List α) (x y z : α) :
    (pre ++ [x, y, z]).get? pre.length = some x ∧
      (pre ++ [x, y, z]).get? (pre.length + 1) = some y ∧
      (pre ++ [x, y, z]).get? (pre.length + 2) = some z := by
  induction pre with
  | nil => simp
  | cons p ps ih => simpa using ih

theorem set_append_three {α : Type} (pre : List α) (x y z w : α) :
    (pre ++ [x, y, z]).set pre.length w = pre ++ [w, y, z] := by
  induction pre with
  | nil => simp
  | cons p ps ih => simp

/-- C9: for a file path whose segments (split at `\`) are `pre ++ [a, b, c]`
with `pre` non-empty (more than 3 segments), `FileName` is computed without
panic, the identity used as timeline key is `a'/b/c`, where `a'` is `USER` when
`a` is `mike` or `Administrator` and `a` itself otherwise, and after the
insertion step this identity is a key of the timeline. -/
theorem C9_long_path_identity (file : String) (pre : List String) (a b c : String)
    (hsplit : stringsSplit file = pre ++ [a, b, c]) (hpre : pre ≠ [])
    (curRec : Record) (st : Bool × Timeline) (v : String) :
    ∃ f, fileName file = Except.ok f ∧
      stringsReplace f
        = (if a = "mike" ∨ a = "Administrator" then "USER" else a) ++ "/" ++ b ++ "/" ++ c ∧
      ((addArtefact curRec st (f, v)).2.get (stringsReplace f)).isSome = true := by
  have hlen : 0 < pre.length := List.length_pos.mpr hpre
  have hn : ((pre ++ [a, b, c]).length : Int) = (pre.length : Int) + 3 := by simp
  have h3 : (pre.length : Int) + 3 - 3 = (pre.length : Nat) := by omega
  have h2 : (pre.length : Int) + 3 - 2 = ((pre.length + 1 : Nat) : Int) := by push_cast; omega
  have h1 : (pre.length : Int) + 3 - 1 = ((pre.length + 2 : Nat) : Int) := by push_cast; omega
  have hgt : (pre.length : Int) + 3 > 3 := by omega
  have hf : fileName file = Except.ok
      ((if a = "mike" ∨ a = "Administrator" then "USER" else a) ++ "\\" ++ b ++ "\\" ++ c) := by
    unfold fileName
    simp only [hsplit, hn, hgt, if_true, h3, h2, h1, index_natCast, Int.toNat_ofNat, bind,
      Except.bind, pure, Except.pure, (get?_append_three pre a b c).1, set_append_three,
      (get?_append_three pre _ b c).1, (get?_append_three pre _ b c).2.1,
      (get?_append_three pre _ b c).2.2]
  have hseg : ∀ s ∈ [a, b, c], '\\' ∉ s.data := fun s hs =>
    stringsSplit_no_backslash file s (by rw [hsplit]; exact List.mem_append_right _ hs)
  have ha' : '\\' ∉ (if a = "mike" ∨ a = "Administrator" then "USER" else a).data := by
    split
    · decide
    · exact hseg a (by simp)
  refine ⟨_, hf, ?_, ?_⟩
  · simp only [stringsReplace_append, stringsReplace_backslash,
      stringsReplace_of_no_backslash _ ha', stringsReplace_of_no_backslash _ (hseg b (by simp)),
      stringsReplace_of_no_backslash _ (hseg c (by simp))]
  · apply addArtefact_key
    intro h
    have := congrArg String.data h
    simp [String.data_append] at this

/-- C9 for `C:\Users\mike\Downloads\evil.exe`: the timeline key is `USER/Downloads/evil.exe`. -/
theorem C9_long_path_identity_witness :
    stringsSplit "C:\\Users\\mike\\Downloads\\evil.exe"
        = ["C:", "Users"] ++ ["mike", "Downloads", "evil.exe"] ∧
      ∃ f, fileName "C:\\Users\\mike\\Downloads\\evil.exe" = Except.ok f ∧
        stringsReplace f = "USER" ++ "/" ++ "Downloads" ++ "/" ++ "evil.exe" ∧
        ((addArtefact {} (false, []) (f, "")).2.get (stringsReplace f)).isSome = true :=
  ⟨by rfl,
    C9_long_path_identity "C:\\Users\\mike\\Downloads\\evil.exe" ["C:", "Users"]
      "mike" "Downloads" "evil.exe" (by rfl) (by simp) {} (false, []) ""⟩

/-- C10: for a file path with 3 or fewer segments (split at `\`; there is
always at least one segment), `FileName` is computed without panic, so without
an index outside the segment list, and it equals the last segment, which the
normalisation of the timeline key leaves as it is. -/
theorem C10_short_path_identity (file : String) (h : (stringsSplit file).length ≤ 3) :
    1 ≤ (stringsSplit file).length ∧
      ∃ last, (stringsSplit file).getLast? = some last ∧ fileName file = Except.ok last ∧
        stringsReplace last = last := by
  have hne := stringsSplit_ne_nil file
  have hpos : 0 < (stringsSplit file).length := List.length_pos.mpr hne
  refine ⟨hpos, (stringsSplit file).getLast hne, List.getLast?_eq_getLast _ hne, ?_,
    stringsReplace_of_no_backslash _
      (stringsSplit_no_backslash file _ (List.getLast_mem hne))⟩
  unfold fileName
  have hle : ¬ (((stringsSplit file).length : Int) > 3) := by omega
  have hcast : ((stringsSplit file).length : Int) - 1 = (((stringsSplit file).length - 1 : Nat) : Int) := by
    omega
  simp only [hle, if_false, hcast, index_natCast]
  rw [List.getLast_eq_getElem]
  simp [List.getElem?_eq_getElem, hpos]

/-- C10 for the paths `evil.exe` (no separator), the empty path and `a\b\c`. -/
theorem C10_short_path_identity_witness :
    (stringsSplit "evil.exe").length ≤ 3 ∧ fileName "evil.exe" = Except.ok "evil.exe" ∧
      fileName "" = Except.ok "" ∧ fileName "a\\b\\c" = Except.ok "c" ∧
      ∃ last, (stringsSplit "evil.exe").getLast? = some last ∧
        fileName "evil.exe" = Except.ok last ∧ stringsReplace last = last :=
  ⟨by decide, by rfl, by rfl, by rfl, (C10_short_path_identity "evil.exe" (by decide)).2⟩

/-! ## C16: empty input -/

theorem valid_range_nil {rt : GoRuntime} (hrt : rt.Valid) {α : Type} (n : Nat) :
    rt.rangeOrder n ([] : GoMap α) = [] :=
  List.perm_nil.mp (hrt.range_perm n [])

theorem valid_sort_nil {rt : GoRuntime} (hrt : rt.Valid) {α : Type} (less : α → α → Bool) :
    rt.sort less ([] : List α) = [] :=
  List.perm_nil.mp (hrt.sort_perm less [])

theorem foldlM_processCommand_skip (rt : GoRuntime) (modules : List String) (targetAction : Int)
    (commands : List Command) (st : Decoding) (ht : targetAction ≠ 0)
    (hc : ∀ c ∈ commands, c.Action.ID ≠ targetAction) :
    commands.foldlM (processCommand rt modules targetAction) st = Except.ok st := by
  induction commands with
  | nil => rfl
  | cons c rest ih =>
    have h1 : processCommand rt modules targetAction st c = Except.ok st := by
      simp [processCommand, ht, hc c (List.mem_cons_self _ _), pure, Except.pure]
    rw [List.foldlM_cons, h1]
    exact ih (fun c' hc' => hc c' (List.mem_cons_of_mem _ hc'))

/-- C16: for every runtime that meets the library contracts, `processResults`
on an empty command list, and on a command list none of whose commands belongs
to the non-zero target action, returns no records and an empty timeline
without panic, and `whodunnit` on the empty timeline returns the empty ranking
without panic. -/
theorem C16_empty_input (rt : GoRuntime) (hrt : rt.Valid) (modules : List String)
    (targetAction : Int) :
    processResults rt [] modules targetAction = Except.ok ([], []) ∧
      (∀ commands : List Command, targetAction ≠ 0 →
        (∀ c ∈ commands, c.Action.ID ≠ targetAction) →
        processResults rt commands modules targetAction = Except.ok ([], [])) ∧
      whodunnit rt [] = Except.ok [] := by
  refine ⟨rfl, fun commands ht hc => ?_, ?_⟩
  · unfold processResults
    rw [foldlM_processCommand_skip rt modules targetAction commands {} ht hc]
    rfl
  · unfold whodunnit
    simp [valid_range_nil hrt, sortWeights, valid_sort_nil hrt, bind, Except.bind, pure,
      Except.pure]

/-- C16 at the concrete runtime: no commands, and the three commands of
`repeatCommands` (action 7) filtered by target action 9. -/
theorem C16_empty_input_witness :
    goRuntime.Valid ∧ (9 : Int) ≠ 0 ∧
      processResults goRuntime [] defaultModules 9 = Except.ok ([], []) ∧
      processResults goRuntime repeatCommands defaultModules 9 = Except.ok ([], []) ∧
      whodunnit goRuntime [] = Except.ok [] :=
  ⟨goRuntime_valid, by decide,
    (C16_empty_input goRuntime goRuntime_valid defaultModules 9).1,
    (C16_empty_input goRuntime goRuntime_valid defaultModules 9).2.1 repeatCommands (by decide)
      (by decide),
    (C16_empty_input goRuntime goRuntime_valid defaultModules 9).2.2⟩

/-! ## C13, C19: time strings that do not parse -/

theorem parseEntry_file_fails (rt : GoRuntime) (st : GoMap Time × String) (e : TimeEntry)
    (hm : e.Module = "file")
    (h1 : rt.parse "2006-01-02 15:04:05 +0000 UTC" e.Time = none)
    (h2 : rt.parse "2006-01-02 15:04:05" e.Time = none) :
    parseEntry rt st e = Except.error (Panic.parseError "2006-01-02 15:04:05" e.Time) := by
  simp [parseEntry, switchLayout, hm, h1, h2, throw, throwThe, MonadExceptOf.throw]

theorem parseEntry_skips (rt : GoRuntime) (arts : GoMap Time) (layout : String) (e : TimeEntry)
    (hm : e.Module ≠ "file")
    (h : rt.parse (switchLayout e.Module layout) e.Time = none) :
    parseEntry rt (arts, layout) e = Except.ok (arts, switchLayout e.Module layout) := by
  simp [parseEntry, h, hm, pure, Except.pure]

theorem foldlM_parseEntry_fails (rt : GoRuntime) (es : List TimeEntry) (e : TimeEntry)
    (he : e ∈ es) (hm : e.Module = "file")
    (h1 : rt.parse "2006-01-02 15:04:05 +0000 UTC" e.Time = none)
    (h2 : rt.parse "2006-01-02 15:04:05" e.Time = none) (st : GoMap Time × String) :
    ∃ err, es.foldlM (parseEntry rt) st = Except.error err := by
  induction es generalizing st with
  | nil => simp at he
  | cons x rest ih =>
    rw [List.foldlM_cons]
    cases hx : parseEntry rt st x with
    | error err => exact ⟨err, rfl⟩
    | ok st' =>
      rcases List.mem_cons.mp he with rfl | hrest
      · rw [parseEntry_file_fails rt st e hm h1 h2] at hx
        cases hx
      · exact ih hrest st'

theorem rankArtefact_fails (rt : GoRuntime) (entry : String × List TimeEntry) (e : TimeEntry)
    (he : e ∈ entry.2) (hm : e.Module = "file")
    (h1 : rt.parse "2006-01-02 15:04:05 +0000 UTC" e.Time = none)
    (h2 : rt.parse "2006-01-02 15:04:05" e.Time = none) (st : Ranking) :
    ∃ err, rankArtefact rt st entry = Except.error err := by
  obtain ⟨err, herr⟩ := foldlM_parseEntry_fails rt entry.2 e he hm h1 h2 (st.arts, st.layout)
  exact ⟨err, by unfold rankArtefact; rw [herr]; rfl⟩

theorem foldlM_rankArtefact_fails (rt : GoRuntime) (l : List (String × List TimeEntry))
    (e : TimeEntry) (he : ∃ kv ∈ l, e ∈ kv.2) (hm : e.Module = "file")
    (h1 : rt.parse "2006-01-02 15:04:05 +0000 UTC" e.Time = none)
    (h2 : rt.parse "2006-01-02 15:04:05" e.Time = none) (st : Ranking) :
    ∃ err, l.foldlM (rankArtefact rt) st = Except.error err := by
  induction l generalizing st with
  | nil => obtain ⟨kv, hkv, -⟩ := he; simp at hkv
  | cons x rest ih =>
    rw [List.foldlM_cons]
    cases hx : rankArtefact rt st x with
    | error err => exact ⟨err, rfl⟩
    | ok st' =>
      obtain ⟨kv, hkv, hmem⟩ := he
      rcases List.mem_cons.mp hkv with rfl | hrest
      · obtain ⟨err, herr⟩ := rankArtefact_fails rt kv e hmem hm h1 h2 st
        rw [herr] at hx
        cases hx
      · exact ih ⟨kv, hrest, hmem⟩ st'

theorem whodunnit_fails {rt : GoRuntime} (hrt : rt.Valid) (t : Timeline) (e : TimeEntry)
    (he : ∃ kv ∈ t, e ∈ kv.2) (hm : e.Module = "file")
    (h1 : rt.parse "2006-01-02 15:04:05 +0000 UTC" e.Time = none)
    (h2 : rt.parse "2006-01-02 15:04:05" e.Time = none) :
    ∃ err, whodunnit rt t = Except.error err := by
  obtain ⟨kv, hkv, hmem⟩ := he
  obtain ⟨err, herr⟩ := foldlM_rankArtefact_fails rt (rt.rangeOrder 0 t) e
    ⟨kv, (hrt.range_perm 0 t).mem_iff.mpr hkv, hmem⟩ hm h1 h2 {}
  exact ⟨err, by unfold whodunnit; rw [herr]; rfl⟩

/-- C13 (counterexample): a registry occurrence and a prefetch occurrence whose
time strings do not parse under the layout of their module are skipped:
`whodunnit` does not abort, it goes on and returns the ranking B: 1 built from
the other occurrence. -/
theorem C13_registry_prefetch_failure_is_skipped :
    occurrenceTime goRuntime (occurrence "A" "registry" "yesterday") = none ∧
      whodunnit goRuntime registryUnparsed = Except.ok [{ Name := "B", Score := 1 }] ∧
      occurrenceTime goRuntime (occurrence "A" "prefetch" "2023-01-01T10:00:00") = none ∧
      whodunnit goRuntime prefetchUnparsed = Except.ok [{ Name := "B", Score := 1 }] :=
  ⟨by rfl, by rfl, by rfl, by rfl⟩
/-- C13 (amended): for every runtime that meets the library contracts, a file
occurrence whose time string fails both the primary and the fallback layout
makes `whodunnit` abort: the parsing step panics with that parse error, a
timeline whose first occurrence it is aborts with that parse error, and no
timeline that holds it yields a ranking; a registry or prefetch occurrence
whose time string fails the layout of its module is skipped instead: the
parsing step leaves the hosts map as it was and goes on. -/
theorem C13_parse_failure_handling (rt : GoRuntime) (hrt : rt.Valid) (e : TimeEntry)
    (arts : GoMap Time) (layout : String) :
    (e.Module = "file" → rt.parse "2006-01-02 15:04:05 +0000 UTC" e.Time = none →
        rt.parse "2006-01-02 15:04:05" e.Time = none →
        parseEntry rt (arts, layout) e
            = Except.error (Panic.parseError "2006-01-02 15:04:05" e.Time) ∧
          (∀ (art : String) (rest : List TimeEntry),
            whodunnit rt [(art, e :: rest)]
              = Except.error (Panic.parseError "2006-01-02 15:04:05" e.Time)) ∧
          (∀ t : Timeline, (∃ kv ∈ t, e ∈ kv.2) → ∀ wl, whodunnit rt t ≠ Except.ok wl)) ∧
      (e.Module = "registry" ∨ e.Module = "prefetch" →
        rt.parse (switchLayout e.Module "") e.Time = none →
        parseEntry rt (arts, layout) e = Except.ok (arts, switchLayout e.Module "")) := by
  constructor
  · intro hm h1 h2
    refine ⟨parseEntry_file_fails rt _ e hm h1 h2, fun art rest => ?_, fun t he wl hwl => ?_⟩
    · unfold whodunnit
      rw [valid_range_singleton hrt]
      simp [rankArtefact, parseEntry_file_fails rt _ e hm h1 h2, bind, Except.bind]
    · obtain ⟨err, herr⟩ := whodunnit_fails hrt t e he hm h1 h2
      rw [herr] at hwl
      cases hwl
  · intro hm h
    have hk : knownModule e.Module := Or.inr hm
    have hnf : e.Module ≠ "file" := by
      rcases hm with hm | hm <;> rw [hm] <;> decide
    rw [← switchLayout_known hk layout] at h ⊢
    exact parseEntry_skips rt arts layout e hnf h

/-- C13 (amended) at the concrete runtime: the file occurrence of host A with
the time string `yesterday` aborts `whodunnit` with the parse error of the
fallback layout; the registry occurrence with the same string is skipped. -/
theorem C13_parse_failure_handling_witness :
    goRuntime.Valid ∧
      whodunnit goRuntime [("evil.exe", [occurrence "A" "file" "yesterday"])]
        = Except.error (Panic.parseError "2006-01-02 15:04:05" "yesterday") ∧
      parseEntry goRuntime ([], "") (occurrence "A" "registry" "yesterday")
        = Except.ok ([], "2006-01-02 15:04:05Z") :=
  ⟨goRuntime_valid,
    ((C13_parse_failure_handling goRuntime goRuntime_valid (occurrence "A" "file" "yesterday")
      [] "").1 (by rfl) (by rfl) (by rfl)).2.1 "evil.exe" [],
    (C13_parse_failure_handling goRuntime goRuntime_valid (occurrence "A" "registry" "yesterday")
      [] "").2 (Or.inl (by rfl)) (by rfl)⟩

/-- C19: the fallback layout `2006-01-02 15:04:05` is tried for the file module
only.  For every runtime: a file occurrence whose time fails the primary layout
and matches the fallback enters the hosts map with the time read by the
fallback; a registry or prefetch occurrence whose time fails the layout of its
module is left out of the hosts map, whatever the runtime would read from the
string under any other layout. -/
theorem C19_fallback_for_file_only (rt : GoRuntime) (arts : GoMap Time) (layout : String)
    (e : TimeEntry) :
    (e.Module = "file" → rt.parse "2006-01-02 15:04:05 +0000 UTC" e.Time = none →
        ∀ t, rt.parse "2006-01-02 15:04:05" e.Time = some t →
          parseEntry rt (arts, layout) e
            = Except.ok (arts.set e.Agent t, "2006-01-02 15:04:05")) ∧
      (e.Module = "registry" → rt.parse "2006-01-02 15:04:05Z" e.Time = none →
        parseEntry rt (arts, layout) e = Except.ok (arts, "2006-01-02 15:04:05Z")) ∧
      (e.Module = "prefetch" → rt.parse "2006-01-02 15:04:05.999999" e.Time = none →
        parseEntry rt (arts, layout) e = Except.ok (arts, "2006-01-02 15:04:05.999999")) := by
  refine ⟨fun hm h1 t h2 => ?_, fun hm h => ?_, fun hm h => ?_⟩
  · simp [parseEntry, switchLayout, hm, h1, h2, pure, Except.pure]
  · simp [parseEntry, switchLayout, hm, h, pure, Except.pure]
  · simp [parseEntry, switchLayout, hm, h, pure, Except.pure]

/-- C19 at the concrete runtime: the string `2023-01-01 10:00:00` (no suffix)
fails the primary file layout and the registry layout and matches the fallback;
the file occurrence is accepted with the time read by the fallback, the
registry occurrence is left out. -/
theorem C19_fallback_for_file_only_witness :
    goParse "2006-01-02 15:04:05 +0000 UTC" "2023-01-01 10:00:00" = none ∧
      goParse "2006-01-02 15:04:05Z" "2023-01-01 10:00:00" = none ∧
      goParse "2006-01-02 15:04:05" "2023-01-01 10:00:00" = some 65020874400000000000 ∧
      parseEntry goRuntime ([], "") (occurrence "A" "file" "2023-01-01 10:00:00")
        = Except.ok ([("A", 65020874400000000000)], "2006-01-02 15:04:05") ∧
      parseEntry goRuntime ([], "") (occurrence "A" "registry" "2023-01-01 10:00:00")
        = Except.ok ([], "2006-01-02 15:04:05Z") :=
  ⟨by rfl, by rfl, by rfl,
    (C19_fallback_for_file_only goRuntime [] "" (occurrence "A" "file" "2023-01-01 10:00:00")).1
      (by rfl) (by rfl) 65020874400000000000 (by rfl),
    (C19_fallback_for_file_only goRuntime [] ""
      (occurrence "A" "registry" "2023-01-01 10:00:00")).2.1 (by rfl) (by rfl)⟩

/-! ## processResults returns: no index of the first loop leaves its slice -/

theorem index_ok_of_lt {α : Type} (xs : List α) (i : Nat) (h : i < xs.length) :
    index xs (i : Int) = Except.ok (xs.get ⟨i, h⟩) := by
  rw [index_natCast]
  simp [List.getElem?_eq_getElem h]

theorem fileName_total (file : String) : ∃ f, fileName file = Except.ok f := by
  have hne := stringsSplit_ne_nil file
  have hpos : 0 < (stringsSplit file).length := List.length_pos.mpr hne
  unfold fileName
  by_cases hgt : ((stringsSplit file).length : Int) > 3
  · have h3 : ((stringsSplit file).length : Int) - 3 = (((stringsSplit file).length - 3 : Nat) : Int) := by
      omega
    have h2 : ((stringsSplit file).length : Int) - 2 = (((stringsSplit file).length - 2 : Nat) : Int) := by
      omega
    have h1 : ((stringsSplit file).length : Int) - 1 = (((stringsSplit file).length - 1 : Nat) : Int) := by
      omega
    have l3 : (stringsSplit file).length - 3 < (stringsSplit file).length := by omega
    have l2 : (stringsSplit file).length - 2 < (stringsSplit file).length := by omega
    have l1 : (stringsSplit file).length - 1 < (stringsSplit file).length := by omega
    simp only [hgt, if_true, h3, h2, h1, Int.toNat_ofNat, bind, Except.bind, pure, Except.pure,
      index_ok_of_lt _ _ l3]
    rw [index_ok_of_lt _ _ (by simpa using l3), index_ok_of_lt _ _ (by simpa using l2),
      index_ok_of_lt _ _ (by simpa using l1)]
    exact ⟨_, rfl⟩
  · have h1 : ((stringsSplit file).length : Int) - 1 = (((stringsSplit file).length - 1 : Nat) : Int) := by
      omega
    have l1 : (stringsSplit file).length - 1 < (stringsSplit file).length := by omega
    simp only [hgt, if_false, h1, index_ok_of_lt _ _ l1]
    exact ⟨_, rfl⟩

theorem foldlM_fileArtefact_total (mfs : List matchedfile) (arts : GoMap String) :
    ∃ arts', mfs.foldlM fileArtefact arts = Except.ok arts' := by
  induction mfs generalizing arts with
  | nil => exact ⟨arts, rfl⟩
  | cons mf rest ih =>
    obtain ⟨f, hf⟩ := fileName_total mf.File
    obtain ⟨arts', h⟩ := ih (arts.set f mf.FileInfo.Mtime)
    refine ⟨arts', ?_⟩
    rw [List.foldlM_cons]
    simp only [fileArtefact, hf, bind, Except.bind, pure, Except.pure]
    exact h

/-- The header fields of a record: everything but `Search` and `Artefacts`. -/
theorem fileCase_total (rt : GoRuntime) (n : Nat) (record : Record) (el : SearchResults) :
    ∃ r, fileCase rt n record el = Except.ok r ∧ r.CommandID = record.CommandID ∧
      r.Agent = record.Agent ∧ r.Module = record.Module ∧ r.ActionID = record.ActionID ∧
      r.Status = record.Status := by
  have key : ∀ (l : List (String × List matchedfile)) (st : Record × GoMap String),
      ∃ st', l.foldlM
          (fun (st : Record × GoMap String) (entry : String × List matchedfile) => do
            let arts ← entry.2.foldlM fileArtefact st.2
            pure ({ st.1 with Search := entry.1, Artefacts := arts }, arts)) st
        = Except.ok st' ∧ st'.1.CommandID = st.1.CommandID ∧ st'.1.Agent = st.1.Agent ∧
          st'.1.Module = st.1.Module ∧ st'.1.ActionID = st.1.ActionID ∧
          st'.1.Status = st.1.Status := by
    intro l
    induction l with
    | nil => intro st; exact ⟨st, rfl, rfl, rfl, rfl, rfl, rfl⟩
    | cons entry rest ih =>
      intro st
      obtain ⟨arts, harts⟩ := foldlM_fileArtefact_total entry.2 st.2
      obtain ⟨st', h, hc⟩ := ih ({ st.1 with Search := entry.1, Artefacts := arts }, arts)
      refine ⟨st', ?_, hc⟩
      rw [List.foldlM_cons]
      simp only [harts, bind, Except.bind, pure, Except.pure]
      exact h
  obtain ⟨st', h, hc⟩ := key (rt.rangeOrder n el) (record, [])
  refine ⟨st'.1, ?_, hc⟩
  unfold fileCase
  simp only [bind, Except.bind, pure, Except.pure] at h ⊢
  rw [h]

/-- One step of the module loop returns, and it appends one record of the
command exactly when the module is the module of the operation. -/
theorem processModule_total (rt : GoRuntime) (cmd : Command) (i : Nat) (st : Decoding)
    (module : String) (hi : i < cmd.Action.Operations.length) (hr : i < cmd.Results.length) :
    ∃ st', processModule rt cmd i st module = Except.ok st' ∧
      st'.records.map Record.CommandID
        = st.records.map Record.CommandID ++
          (if (cmd.Action.Operations.get ⟨i, hi⟩).Module = module then [cmd.ID] else []) := by
  unfold processModule
  rw [index_ok_of_lt _ _ hi, index_ok_of_lt _ _ hr]
  simp only [bind, Except.bind, pure, Except.pure]
  by_cases hm : (cmd.Action.Operations.get ⟨i, hi⟩).Module = module
  · simp only [hm, if_true]
    by_cases hfile : module = "file"
    · obtain ⟨r, hfc, hid, -⟩ := fileCase_total rt st.ranges
        { st.record with
          ActionID := cmd.Action.ID, Agent := cmd.Agent.Name, CommandID := cmd.ID,
          Module := module, Status := cmd.Status }
        (unmarshalSearchResults (cmd.Results.get ⟨i, hr⟩).Elements)
      simp only [hfile, if_true] at hfc ⊢
      simp only [hfc]
      exact ⟨_, rfl, by simp [hid]⟩
    · by_cases hreg : module = "registry"
      · simp only [hfile, hreg, if_true, if_false]
        exact ⟨_, rfl, by simp [registryCase]⟩
      · by_cases hpre : module = "prefetch"
        · simp only [hfile, hreg, hpre, if_true, if_false]
          exact ⟨_, rfl, by simp [prefetchCase]⟩
        · simp only [hfile, hreg, hpre, if_false]
          exact ⟨_, rfl, by simp⟩
  · simp only [hm, if_false]
    exact ⟨st, rfl, by simp⟩

theorem foldlM_processModule_total (rt : GoRuntime) (cmd : Command) (i : Nat)
    (modules : List String) (st : Decoding)
    (hi : i < cmd.Action.Operations.length) (hr : i < cmd.Results.length) :
    ∃ st', modules.foldlM (processModule rt cmd i) st = Except.ok st' ∧
      st'.records.map Record.CommandID
        = st.records.map Record.CommandID ++
          List.replicate (modules.count (cmd.Action.Operations.get ⟨i, hi⟩).Module) cmd.ID := by
  induction modules generalizing st with
  | nil => exact ⟨st, rfl, by simp⟩
  | cons m rest ih =>
    obtain ⟨st1, h1, hrec1⟩ := processModule_total rt cmd i st m hi hr
    obtain ⟨st', h2, hrec2⟩ := ih st1
    refine ⟨st', by rw [List.foldlM_cons, h1]; exact h2, ?_⟩
    rw [hrec2, hrec1]
    generalize (cmd.Action.Operations.get ⟨i, hi⟩).Module = opm
    by_cases hm : opm = m
    · subst hm
      simp only [if_true, List.count_cons_self, List.append_assoc, List.singleton_append,
        List.replicate_succ]
    · simp [hm, List.count_cons_of_ne hm]

theorem foldlM_operations_total (rt : GoRuntime) (cmd : Command) (modules : List String)
    (l : List Nat) (st : Decoding)
    (hl : ∀ i ∈ l, i < cmd.Action.Operations.length ∧ i < cmd.Results.length) :
    ∃ st', l.foldlM (fun st i => modules.foldlM (processModule rt cmd i) st) st
      = Except.ok st' := by
  induction l generalizing st with
  | nil => exact ⟨st, rfl⟩
  | cons i rest ih =>
    obtain ⟨st1, h1, -⟩ := foldlM_processModule_total rt cmd i modules st
      (hl i (List.mem_cons_self _ _)).1 (hl i (List.mem_cons_self _ _)).2
    obtain ⟨st', h2⟩ := ih st1 (fun j hj => hl j (List.mem_cons_of_mem _ hj))
    exact ⟨st', by rw [List.foldlM_cons, h1]; exact h2⟩

theorem processCommand_total (rt : GoRuntime) (modules : List String) (targetAction : Int)
    (st : Decoding) (cmd : Command)
    (h : cmd.Action.Operations.length ≤ cmd.Results.length) :
    ∃ st', processCommand rt modules targetAction st cmd = Except.ok st' := by
  unfold processCommand
  split
  · exact ⟨st, rfl⟩
  · exact foldlM_operations_total rt cmd modules _ st
      (fun i hi => by have := List.mem_range.mp hi; omega)

/-- The function `processResults` returns when every command has a result for
each of its operations. -/
theorem processResults_total (rt : GoRuntime) (commands : List Command) (modules : List String)
    (targetAction : Int)
    (h : ∀ c ∈ commands, c.Action.Operations.length ≤ c.Results.length) :
    ∃ r, processResults rt commands modules targetAction = Except.ok r := by
  have key : ∀ (l : List Command) (st : Decoding),
      (∀ c ∈ l, c.Action.Operations.length ≤ c.Results.length) →
      ∃ st', l.foldlM (processCommand rt modules targetAction) st = Except.ok st' := by
    intro l
    induction l with
    | nil => intro st _; exact ⟨st, rfl⟩
    | cons c rest ih =>
      intro st hl
      obtain ⟨st1, h1⟩ := processCommand_total rt modules targetAction st c
        (hl c (List.mem_cons_self _ _))
      obtain ⟨st', h2⟩ := ih st1 (fun c' hc' => hl c' (List.mem_cons_of_mem _ hc'))
      exact ⟨st', by rw [List.foldlM_cons, h1]; exact h2⟩
  obtain ⟨st', hst⟩ := key commands {} h
  exact ⟨(st'.records, buildTimeline rt st'.records [] st'.ranges), by
    unfold processResults; rw [hst]; rfl⟩

/-! ## C12: payloads that do not decode -/

theorem processCommand_single (rt : GoRuntime) (modules : List String) (st : Decoding)
    (cmd : Command) (op : Operation) (hop : cmd.Action.Operations = [op])
    (hres : cmd.Results ≠ []) :
    ∃ st', processCommand rt modules 0 st cmd = Except.ok st' ∧
      st'.records.map Record.CommandID
        = st.records.map Record.CommandID ++ List.replicate (modules.count op.Module) cmd.ID := by
  have hi : 0 < cmd.Action.Operations.length := by simp [hop]
  have hr : 0 < cmd.Results.length := List.length_pos.mpr hres
  obtain ⟨st', h, hrec⟩ := foldlM_processModule_total rt cmd 0 modules st hi hr
  have hget : cmd.Action.Operations.get ⟨0, hi⟩ = op := by simp [hop]
  rw [hget] at hrec
  refine ⟨st', ?_, hrec⟩
  have hrange : List.range cmd.Action.Operations.length = [0] := by rw [hop]; rfl
  simp only [processCommand, ne_eq, not_true_eq_false, false_and, if_false, hrange,
    List.foldlM_cons, List.foldlM_nil, h, bind, Except.bind, pure, Except.pure]

theorem foldlM_processCommand_single (rt : GoRuntime) (modules : List String)
    (commands : List Command) (st : Decoding)
    (h : ∀ c ∈ commands, ∃ op, c.Action.Operations = [op] ∧ c.Results ≠ [] ∧
      modules.count op.Module = 1) :
    ∃ st', commands.foldlM (processCommand rt modules 0) st = Except.ok st' ∧
      st'.records.map Record.CommandID
        = st.records.map Record.CommandID ++ commands.map Command.ID := by
  induction commands generalizing st with
  | nil => exact ⟨st, rfl, by simp⟩
  | cons c rest ih =>
    obtain ⟨op, hop, hres, hcount⟩ := h c (List.mem_cons_self _ _)
    obtain ⟨st1, h1, hrec1⟩ := processCommand_single rt modules st c op hop hres
    obtain ⟨st', h2, hrec2⟩ := ih st1 (fun c' hc' => h c' (List.mem_cons_of_mem _ hc'))
    refine ⟨st', by rw [List.foldlM_cons, h1]; exact h2, ?_⟩
    rw [hrec2, hrec1, hcount]
    simp

/-- C12 (counterexample): of the two prefetch commands `malformedCommands` the
second carries a payload that does not decode into the prefetch shape;
`processResults` returns two records, not one, and the record of the offending
command is among them, with no artefacts. -/
theorem C12_malformed_payload_still_yields_record :
    unmarshalPrefetchRecs (Json.str "garbage") = [] ∧
      (processResults goRuntime malformedCommands defaultModules 0).map Prod.fst
        = Except.ok
          [{ ActionID := 7, CommandID := 1, Module := "prefetch", Agent := "A",
             Status := "success", Artefacts := [("x.exe", "2023-01-01 10:00:00")] },
           { ActionID := 7, CommandID := 2, Module := "prefetch", Agent := "B",
             Status := "success", Artefacts := [] }] :=
  ⟨by rfl, by rfl⟩

/-- C12 (amended): for a run over commands with one operation each, whose
module is listed once in `modules`, and one result at least, `processResults`
does not abort and returns exactly one record per command, in the order of the
commands, whatever the payloads are: a payload that does not decode into the
shape of its module yields a record all the same (the result type of
`processResults` has no place for a decode error). -/
theorem C12_one_record_per_command (rt : GoRuntime) (modules : List String)
    (commands : List Command)
    (h : ∀ c ∈ commands, ∃ op, c.Action.Operations = [op] ∧ c.Results ≠ [] ∧
      modules.count op.Module = 1) :
    ∃ records t, processResults rt commands modules 0 = Except.ok (records, t) ∧
      records.map Record.CommandID = commands.map Command.ID ∧
      records.length = commands.length := by
  obtain ⟨st', hst, hrec⟩ := foldlM_processCommand_single rt modules commands {} h
  have hids : st'.records.map Record.CommandID = commands.map Command.ID := by
    simpa using hrec
  refine ⟨st'.records, buildTimeline rt st'.records [] st'.ranges, ?_, hids, ?_⟩
  · unfold processResults; rw [hst]; rfl
  · simpa using congrArg List.length hids

/-- C12 (amended) at `malformedCommands`: two commands, two records. -/
theorem C12_one_record_per_command_witness :
    (∀ c ∈ malformedCommands, ∃ op, c.Action.Operations = [op] ∧ c.Results ≠ [] ∧
        defaultModules.count op.Module = 1) ∧
      ∃ records t, processResults goRuntime malformedCommands defaultModules 0
          = Except.ok (records, t) ∧
        records.map Record.CommandID = malformedCommands.map Command.ID ∧
        records.length = malformedCommands.length :=
  have h : ∀ c ∈ malformedCommands, ∃ op, c.Action.Operations = [op] ∧ c.Results ≠ [] ∧
      defaultModules.count op.Module = 1 := by
    intro c hc
    simp only [malformedCommands, List.mem_cons, List.mem_singleton, List.not_mem_nil,
      or_false] at hc
    rcases hc with rfl | rfl
    · exact ⟨{ Module := "prefetch" }, rfl, by simp [prefetchCommand], by decide⟩
    · exact ⟨{ Module := "prefetch" }, rfl, by simp [rawCommand], by decide⟩
  ⟨h, C12_one_record_per_command goRuntime defaultModules malformedCommands h⟩

/-! ## C17: the keys of the timeline are normalised -/

theorem stringsReplace_no_backslash (s : String) : '\\' ∉ (stringsReplace s).data := by
  unfold stringsReplace
  simp only [List.mem_map, not_exists, not_and]
  intro c _
  split <;> simp_all

theorem GoMap.mem_keys_set {α : Type} (m : GoMap α) (k₀ : String) (v : α) (k : String)
    (h : k ∈ (m.set k₀ v).keys) : k ∈ m.keys ∨ k = k₀ := by
  rw [GoMap.keys_set] at h
  split at h
  · exact Or.inl h
  · rcases List.mem_append.mp h with h | h
    · exact Or.inl h
    · exact Or.inr (by simpa using h)

theorem foldl_scanEntry_keys (P : String → Prop) (k : String) (hk : P k)
    (Times : List TimeEntry) (tr : TimeEntry) (l : List TimeEntry) (st : Bool × Timeline)
    (h : ∀ x ∈ st.2.keys, P x) : ∀ x ∈ (l.foldl (scanEntry k Times tr) st).2.keys, P x := by
  induction l generalizing st with
  | nil => simpa using h
  | cons e rest ih =>
    simp only [List.foldl_cons]
    apply ih
    by_cases ha : e.Agent = tr.Agent
    · simpa [scanEntry, ha] using h
    · by_cases hf : st.1 = false
      · intro x hx
        simp only [scanEntry, ha, if_false, hf, if_true] at hx
        rcases GoMap.mem_keys_set _ _ _ _ hx with hx | rfl
        · exact h x hx
        · exact hk
      · simpa [scanEntry, ha, hf] using h

theorem addArtefact_keys (curRec : Record) (st : Bool × Timeline) (kv : String × String)
    (h : ∀ x ∈ st.2.keys, '\\' ∉ x.data) :
    ∀ x ∈ (addArtefact curRec st kv).2.keys, '\\' ∉ x.data := by
  have hset : ∀ (t : Timeline) (v : List TimeEntry), (∀ x ∈ t.keys, '\\' ∉ x.data) →
      ∀ x ∈ (t.set (stringsReplace kv.1) v).keys, '\\' ∉ x.data := by
    intro t v ht x hx
    rcases GoMap.mem_keys_set _ _ _ _ hx with hx | rfl
    · exact ht x hx
    · exact stringsReplace_no_backslash kv.1
  by_cases hk : kv.1 = ""
  · simpa [addArtefact, hk] using h
  · by_cases hlen : ((st.2.get (stringsReplace kv.1)).getD []).length = 0
    · intro x hx
      simp only [addArtefact, ne_eq, hk, not_false_eq_true, if_true, hlen, GoMap.get_set_self,
        Option.getD_some, List.length_nil] at hx
      exact hset _ _ (hset _ _ h) x hx
    · intro x hx
      simp only [addArtefact, ne_eq, hk, not_false_eq_true, if_true, hlen, if_false] at hx
      exact foldl_scanEntry_keys (fun x => '\\' ∉ x.data) _ (stringsReplace_no_backslash kv.1)
        _ _ _ _ h x hx

theorem buildTimeline_keys (rt : GoRuntime) (records : List Record) (t : Timeline) (n : Nat)
    (h : ∀ x ∈ t.keys, '\\' ∉ x.data) : ∀ x ∈ (buildTimeline rt records t n).keys, '\\' ∉ x.data := by
  have hart : ∀ (curRec : Record) (l : List (String × String)) (st : Bool × Timeline),
      (∀ x ∈ st.2.keys, '\\' ∉ x.data) →
      ∀ x ∈ (l.foldl (addArtefact curRec) st).2.keys, '\\' ∉ x.data := by
    intro curRec l
    induction l with
    | nil => intro st hst; simpa using hst
    | cons kv rest ih => intro st hst; exact ih _ (addArtefact_keys curRec st kv hst)
  have hrec : ∀ (l : List Record) (st : Timeline × Nat), (∀ x ∈ st.1.keys, '\\' ∉ x.data) →
      ∀ x ∈ (l.foldl (addRecord rt) st).1.keys, '\\' ∉ x.data := by
    intro l
    induction l with
    | nil => intro st hst; simpa using hst
    | cons r rest ih =>
      intro st hst
      exact ih _ (hart r _ (false, st.1) hst)
  exact hrec records (t, n) h

/-- C17: every key of the timeline that `processResults` returns is free of
backslashes, and normalising it again leaves it unchanged; and `processResults`
does return a timeline when every command has a result for each of its
operations. -/
theorem C17_timeline_keys_normalised (rt : GoRuntime) (commands : List Command)
    (modules : List String) (targetAction : Int) :
    (∀ records t, processResults rt commands modules targetAction = Except.ok (records, t) →
        ∀ k ∈ t.keys, '\\' ∉ k.data ∧ stringsReplace k = k) ∧
      ((∀ c ∈ commands, c.Action.Operations.length ≤ c.Results.length) →
        ∃ r, processResults rt commands modules targetAction = Except.ok r) := by
  refine ⟨fun records t h k hk => ?_, processResults_total rt commands modules targetAction⟩
  unfold processResults at h
  cases hst : commands.foldlM (processCommand rt modules targetAction) {} with
  | error e => simp [hst, bind, Except.bind] at h
  | ok st =>
    simp only [hst, bind, Except.bind, pure, Except.pure, Except.ok.injEq, Prod.mk.injEq] at h
    have hkeys := buildTimeline_keys rt st.records [] st.ranges (by simp [GoMap.keys])
    rw [h.2] at hkeys
    exact ⟨hkeys k hk, stringsReplace_of_no_backslash k (hkeys k hk)⟩

/-- C17 for one registry command whose key is written with backslashes: the
timeline is returned and its only key is `Software/Microsoft/Run`. -/
theorem C17_timeline_keys_normalised_witness :
    processResults goRuntime
        [registryCommand 1 "A" "HKLM" "Software\\Microsoft\\Run" "2023-01-01 10:00:00Z"]
        defaultModules 0
        = Except.ok
          ([{ ActionID := 7, CommandID := 1, Module := "registry", Agent := "A",
              Status := "success",
              Artefacts := [("Software\\Microsoft\\Run", "2023-01-01 10:00:00Z")] }],
           [("Software/Microsoft/Run", [occurrence "A" "registry" "2023-01-01 10:00:00Z"])]) ∧
      '\\' ∉ "Software/Microsoft/Run".data ∧
      stringsReplace "Software/Microsoft/Run" = "Software/Microsoft/Run" :=
  ⟨by rfl,
    (C17_timeline_keys_normalised goRuntime
      [registryCommand 1 "A" "HKLM" "Software\\Microsoft\\Run" "2023-01-01 10:00:00Z"]
      defaultModules 0).1 _ _ (by rfl) "Software/Microsoft/Run" (by decide)⟩

/-! ## C11: the identity of registry and prefetch artefacts -/

/-- The timeline built from one record with one artefact of a non-empty name. -/
theorem buildTimeline_single {rt : GoRuntime} (hrt : rt.Valid) (r : Record) (name v : String)
    (n : Nat) (hart : r.Artefacts = [(name, v)]) (hname : name ≠ "") :
    buildTimeline rt [r] [] n
      = [(stringsReplace name,
          [{ ActionID := r.ActionID, Agent := r.Agent, Module := r.Module, Status := r.Status,
             Time := v }])] := by
  simp [buildTimeline, addRecord, hart, valid_range_singleton hrt, addArtefact, hname,
    GoMap.get, GoMap.set]

theorem processResults_registryCommand {rt : GoRuntime} (hrt : rt.Valid) (id : Int)
    (host hive key lastWrite : String) (hkey : key ≠ "") :
    (processResults rt [registryCommand id host hive key lastWrite] defaultModules 0).map Prod.snd
      = Except.ok [(stringsReplace key, [occurrence host "registry" lastWrite])] := by
  have hrange : List.range 1 = [0] := rfl
  have hel : unmarshalRegRecords
      (Json.obj [("results", Json.arr [Json.obj [("hive", Json.str hive), ("key", Json.str key),
        ("lastwrite", Json.str lastWrite)]])])
      = [("results", [{ Hive := hive, Key := key, LastWrite := lastWrite }])] := by
    simp [unmarshalRegRecords, decodeMap, decodeSlice, decodeRegRecord, decodeString, GoMap.get,
      GoMap.set]
  simp [processResults, processCommand, registryCommand, defaultModules, hrange, processModule,
    index, bind, Except.bind, pure, Except.pure, Except.map, registryCase, hel,
    valid_range_singleton hrt, GoMap.set, occurrence]
  exact buildTimeline_single hrt _ key lastWrite 1 rfl hkey

theorem processResults_prefetchCommand {rt : GoRuntime} (hrt : rt.Valid) (id : Int)
    (host exeName execDate : String) (hname : exeName ≠ "") :
    (processResults rt [prefetchCommand id host exeName execDate] defaultModules 0).map Prod.snd
      = Except.ok [(stringsReplace exeName, [occurrence host "prefetch" execDate])] := by
  have hrange : List.range 1 = [0] := rfl
  have hel : unmarshalPrefetchRecs
      (Json.obj [("results", Json.arr [Json.obj [("exename", Json.str exeName),
        ("execdate", Json.str execDate)]])])
      = [("results", [{ ExeName := exeName, ExecDate := execDate }])] := by
    simp [unmarshalPrefetchRecs, decodeMap, decodeSlice, decodePrefetchResult, decodeString,
      GoMap.get, GoMap.set]
  simp [processResults, processCommand, prefetchCommand, defaultModules, hrange, processModule,
    index, bind, Except.bind, pure, Except.pure, Except.map, prefetchCase, hel,
    valid_range_singleton hrt, GoMap.set, occurrence]
  exact buildTimeline_single hrt _ exeName execDate 1 rfl hname

/-- C11 (counterexample): the registry key `Software\Microsoft\Run` is indexed
under `Software/Microsoft/Run` and the executable name `tools\x.exe` under
`tools/x.exe`: neither identity is the key or name unmodified. -/
theorem C11_backslashes_are_replaced :
    (processResults goRuntime
        [registryCommand 1 "A" "HKLM" "Software\\Microsoft\\Run" "2023-01-01 10:00:00Z"]
        defaultModules 0).map (fun r => r.2.keys) = Except.ok ["Software/Microsoft/Run"] ∧
      (processResults goRuntime [prefetchCommand 2 "A" "tools\\x.exe" "2023-01-01 10:00:00"]
        defaultModules 0).map (fun r => r.2.keys) = Except.ok ["tools/x.exe"] ∧
      "Software/Microsoft/Run" ≠ "Software\\Microsoft\\Run" ∧ "tools/x.exe" ≠ "tools\\x.exe" :=
  ⟨by rfl, by rfl, by decide, by decide⟩

/-- C11 (amended): for every runtime that meets the library contracts, the
occurrence of a registry artefact with a non-empty key is indexed under the key
with every backslash replaced by `/`, and the occurrence of a prefetch artefact
with a non-empty executable name under the name with every backslash replaced
by `/`; the identity is the key or name unmodified when it holds no backslash. -/
theorem C11_registry_prefetch_identity (rt : GoRuntime) (hrt : rt.Valid) (id : Int)
    (host hive name time : String) (hname : name ≠ "") :
    (processResults rt [registryCommand id host hive name time] defaultModules 0).map Prod.snd
        = Except.ok [(stringsReplace name, [occurrence host "registry" time])] ∧
      (processResults rt [prefetchCommand id host name time] defaultModules 0).map Prod.snd
        = Except.ok [(stringsReplace name, [occurrence host "prefetch" time])] ∧
      ('\\' ∉ name.data → stringsReplace name = name) :=
  ⟨processResults_registryCommand hrt id host hive name time hname,
    processResults_prefetchCommand hrt id host name time hname,
    stringsReplace_of_no_backslash name⟩

/-- C11 (amended) for the registry key `Software\Microsoft\Run` and the
executable name `x.exe`. -/
theorem C11_registry_prefetch_identity_witness :
    goRuntime.Valid ∧
      (processResults goRuntime
        [registryCommand 1 "A" "HKLM" "Software\\Microsoft\\Run" "2023-01-01 10:00:00Z"]
        defaultModules 0).map Prod.snd
        = Except.ok [(stringsReplace "Software\\Microsoft\\Run",
            [occurrence "A" "registry" "2023-01-01 10:00:00Z"])] ∧
      stringsReplace "Software\\Microsoft\\Run" = "Software/Microsoft/Run" ∧
      stringsReplace "x.exe" = "x.exe" :=
  ⟨goRuntime_valid,
    (C11_registry_prefetch_identity goRuntime goRuntime_valid 1 "A" "HKLM"
      "Software\\Microsoft\\Run" "2023-01-01 10:00:00Z" (by decide)).1,
    by rfl,
    (C11_registry_prefetch_identity goRuntime goRuntime_valid 1 "A" "HKLM" "x.exe"
      "2023-01-01 10:00:00Z" (by decide)).2.2 (by decide)⟩

/-! ## C14: where the occurrences of the timeline come from -/

theorem GoMap.mem_set {α : Type} (m : GoMap α) (k : String) (v : α) (x : String × α)
    (h : x ∈ m.set k v) : x = (k, v) ∨ x ∈ m := by
  induction m with
  | nil => simp [GoMap.set] at h; exact Or.inl h
  | cons kv rest ih =>
    obtain ⟨k', v'⟩ := kv
    unfold GoMap.set at h
    by_cases hk : k' = k
    · simp only [hk, if_true, List.mem_cons] at h
      rcases h with h | h
      · exact Or.inl h
      · exact Or.inr (List.mem_cons_of_mem _ h)
    · simp only [hk, if_false, List.mem_cons] at h
      rcases h with h | h
      · exact Or.inr (h ▸ List.mem_cons_self _ _)
      · rcases ih h with h | h
        · exact Or.inl h
        · exact Or.inr (List.mem_cons_of_mem _ h)

theorem GoMap.mem_of_get {α : Type} (m : GoMap α) (k : String) (v : α) (h : m.get k = some v) :
    (k, v) ∈ m := by
  induction m with
  | nil => simp [GoMap.get] at h
  | cons kv rest ih =>
    obtain ⟨k', v'⟩ := kv
    unfold GoMap.get at h
    by_cases hk : k' = k
    · simp only [hk, if_true, Option.some.injEq] at h
      subst hk; subst h; exact List.mem_cons_self _ _
    · simp only [hk, if_false] at h
      exact List.mem_cons_of_mem _ (ih h)

theorem foldl_scanEntry_inv (Q : String → TimeEntry → Prop) (k : String)
    (Times : List TimeEntry) (tr : TimeEntry) (hTimes : ∀ e ∈ Times, Q k e) (htr : Q k tr)
    (l : List TimeEntry) (st : Bool × Timeline) (h : ∀ kv ∈ st.2, ∀ e ∈ kv.2, Q kv.1 e) :
    ∀ kv ∈ (l.foldl (scanEntry k Times tr) st).2, ∀ e ∈ kv.2, Q kv.1 e := by
  induction l generalizing st with
  | nil => simpa using h
  | cons x rest ih =>
    simp only [List.foldl_cons]
    apply ih
    by_cases ha : x.Agent = tr.Agent
    · simpa [scanEntry, ha] using h
    · by_cases hf : st.1 = false
      · intro kv hkv e he
        simp only [scanEntry, ha, if_false, hf, if_true] at hkv
        rcases GoMap.mem_set _ _ _ _ hkv with rfl | hkv
        · rcases List.mem_append.mp he with he | he
          · exact hTimes e he
          · rw [List.mem_singleton.mp he]; exact htr
        · exact h kv hkv e he
      · simpa [scanEntry, ha, hf] using h

theorem addArtefact_inv (Q : String → TimeEntry → Prop) (curRec : Record) (st : Bool × Timeline)
    (kv : String × String)
    (hnew : kv.1 ≠ "" → Q (stringsReplace kv.1)
      { ActionID := curRec.ActionID, Agent := curRec.Agent, Module := curRec.Module,
        Status := curRec.Status, Time := kv.2 })
    (h : ∀ x ∈ st.2, ∀ e ∈ x.2, Q x.1 e) :
    ∀ x ∈ (addArtefact curRec st kv).2, ∀ e ∈ x.2, Q x.1 e := by
  by_cases hk : kv.1 = ""
  · simpa [addArtefact, hk] using h
  · by_cases hlen : ((st.2.get (stringsReplace kv.1)).getD []).length = 0
    · intro x hx e he
      simp only [addArtefact, ne_eq, hk, not_false_eq_true, if_true, hlen, GoMap.get_set_self,
        Option.getD_some, List.length_nil, List.nil_append] at hx
      rcases GoMap.mem_set _ _ _ _ hx with rfl | hx
      · rw [List.mem_singleton.mp he]; exact hnew hk
      · rcases GoMap.mem_set _ _ _ _ hx with rfl | hx
        · simp at he
        · exact h x hx e he
    · intro x hx e he
      simp only [addArtefact, ne_eq, hk, not_false_eq_true, if_true, hlen, if_false] at hx
      refine foldl_scanEntry_inv Q _ _ _ ?_ (hnew hk) _ _ h x hx e he
      intro e' he'
      cases hg : GoMap.get st.2 (stringsReplace kv.1) with
      | none => simp [hg] at he'
      | some occs =>
        simp only [hg, Option.getD_some] at he'
        exact h _ (GoMap.mem_of_get _ _ _ hg) e' he'

/-- Every occurrence of the timeline built from `records` is made from an
artefact of one of the records: the key is the normalised name, the time is the
value stored with the name, the other fields are those of the record. -/
theorem buildTimeline_provenance {rt : GoRuntime} (hrt : rt.Valid) (records : List Record)
    (n : Nat) :
    ∀ kv ∈ buildTimeline rt records [] n, ∀ e ∈ kv.2,
      ∃ r ∈ records, ∃ a ∈ r.Artefacts, kv.1 = stringsReplace a.1 ∧
        e = { ActionID := r.ActionID, Agent := r.Agent, Module := r.Module, Status := r.Status,
              Time := a.2 } := by
  let Q : String → TimeEntry → Prop := fun k e =>
    ∃ r ∈ records, ∃ a ∈ r.Artefacts, k = stringsReplace a.1 ∧
      e = { ActionID := r.ActionID, Agent := r.Agent, Module := r.Module, Status := r.Status,
            Time := a.2 }
  have hart : ∀ (curRec : Record), curRec ∈ records → ∀ (l : List (String × String)),
      (∀ a ∈ l, a ∈ curRec.Artefacts) → ∀ (st : Bool × Timeline),
      (∀ x ∈ st.2, ∀ e ∈ x.2, Q x.1 e) →
      ∀ x ∈ (l.foldl (addArtefact curRec) st).2, ∀ e ∈ x.2, Q x.1 e := by
    intro curRec hcur l
    induction l with
    | nil => intro _ st hst; simpa using hst
    | cons a rest ih =>
      intro hl st hst
      refine ih (fun b hb => hl b (List.mem_cons_of_mem _ hb)) _
        (addArtefact_inv Q curRec st a (fun _ => ?_) hst)
      exact ⟨curRec, hcur, a, hl a (List.mem_cons_self _ _), rfl, rfl⟩
  have hrec : ∀ (l : List Record), (∀ r ∈ l, r ∈ records) → ∀ (st : Timeline × Nat),
      (∀ x ∈ st.1, ∀ e ∈ x.2, Q x.1 e) →
      ∀ x ∈ (l.foldl (addRecord rt) st).1, ∀ e ∈ x.2, Q x.1 e := by
    intro l
    induction l with
    | nil => intro _ st hst; simpa using hst
    | cons r rest ih =>
      intro hl st hst
      refine ih (fun r' hr' => hl r' (List.mem_cons_of_mem _ hr')) _ ?_
      exact hart r (hl r (List.mem_cons_self _ _)) _
        (fun a ha => (hrt.range_perm st.2 r.Artefacts).mem_iff.mp ha) (false, st.1) hst
  exact hrec records (fun r hr => hr) ([], n) (by simp)

/-- C14 (counterexample): the execution dates `not a time` and the empty
string parse under no layout, and `processResults` inserts both occurrences
into the timeline. -/
theorem C14_unparsable_times_are_inserted :
    (processResults goRuntime unparsedCommands defaultModules 0).map Prod.snd
        = Except.ok [("x.exe", [occurrence "A" "prefetch" "not a time"]),
                     ("y.exe", [occurrence "B" "prefetch" ""])] ∧
      occurrenceTime goRuntime (occurrence "A" "prefetch" "not a time") = none ∧
      occurrenceTime goRuntime (occurrence "B" "prefetch" "") = none :=
  ⟨by rfl, by rfl, by rfl⟩

/-- C14 (amended): for every runtime that meets the library contracts, every
occurrence of the timeline returned by `processResults` carries the time string
of an artefact of one of the returned records, copied as it is, under the
normalised name of that artefact and with the host and module of that record;
no time string is parsed or checked on the way: a prefetch command with a
non-empty executable name yields its occurrence whatever the execution date
string is. -/
theorem C14_times_are_copied_unparsed (rt : GoRuntime) (hrt : rt.Valid)
    (commands : List Command) (modules : List String) (targetAction : Int) :
    (∀ records t, processResults rt commands modules targetAction = Except.ok (records, t) →
        ∀ kv ∈ t, ∀ e ∈ kv.2, ∃ r ∈ records, ∃ a ∈ r.Artefacts,
          kv.1 = stringsReplace a.1 ∧ e.Time = a.2 ∧ e.Agent = r.Agent ∧ e.Module = r.Module) ∧
      (∀ (id : Int) (host name time : String), name ≠ "" →
        (processResults rt [prefetchCommand id host name time] defaultModules 0).map Prod.snd
          = Except.ok [(stringsReplace name, [occurrence host "prefetch" time])]) := by
  refine ⟨fun records t h kv hkv e he => ?_,
    fun id host name time hname => processResults_prefetchCommand hrt id host name time hname⟩
  unfold processResults at h
  cases hst : commands.foldlM (processCommand rt modules targetAction) {} with
  | error err => simp [hst, bind, Except.bind] at h
  | ok st =>
    simp only [hst, bind, Except.bind, pure, Except.pure, Except.ok.injEq, Prod.mk.injEq] at h
    obtain ⟨hrec, ht⟩ := h
    rw [← ht] at hkv
    obtain ⟨r, hr, a, ha, hk, hentry⟩ := buildTimeline_provenance hrt st.records st.ranges kv hkv e he
    exact ⟨r, hrec ▸ hr, a, ha, hk, by rw [hentry], by rw [hentry], by rw [hentry]⟩

/-- C14 (amended) at `unparsedCommands`: the occurrence of host A under `x.exe`
carries the string `not a time` of the record of host A. -/
theorem C14_times_are_copied_unparsed_witness :
    goRuntime.Valid ∧
      (∃ r ∈ [({ ActionID := 7, CommandID := 1, Module := "prefetch", Agent := "A",
                 Status := "success", Artefacts := [("x.exe", "not a time")] } : Record),
              { ActionID := 7, CommandID := 2, Module := "prefetch", Agent := "B",
                Status := "success", Artefacts := [("y.exe", "")] }],
        ∃ a ∈ r.Artefacts, "x.exe" = stringsReplace a.1 ∧
          (occurrence "A" "prefetch" "not a time").Time = a.2 ∧
          (occurrence "A" "prefetch" "not a time").Agent = r.Agent ∧
          (occurrence "A" "prefetch" "not a time").Module = r.Module) ∧
      (processResults goRuntime [prefetchCommand 2 "B" "y.exe" ""] defaultModules 0).map Prod.snd
        = Except.ok [(stringsReplace "y.exe", [occurrence "B" "prefetch" ""])] :=
  ⟨goRuntime_valid,
    (C14_times_are_copied_unparsed goRuntime goRuntime_valid unparsedCommands defaultModules 0).1
      _ [("x.exe", [occurrence "A" "prefetch" "not a time"]),
         ("y.exe", [occurrence "B" "prefetch" ""])] (by rfl)
      ("x.exe", [occurrence "A" "prefetch" "not a time"]) (by simp)
      (occurrence "A" "prefetch" "not a time") (by simp),
    (C14_times_are_copied_unparsed goRuntime goRuntime_valid [] defaultModules 0).2 2 "B" "y.exe"
      "" (by decide)⟩

/-! ## C15, C18, C20: evaluations of the code -/

/-- C15 (behaviour of the code at the failing input): for the two registry
commands `registryCommands`, `processResults` stores the times
`2023-01-01 10:00:00Z` and `2023-01-01 12:00:00Z`, on which `whodunnit` would
return A: 1; the artefact loop of the timeline mode of `printResults` cuts both
stored strings to 19 characters, after which neither parses under the registry
layout and the call of `whodunnit` inside `printResults` panics on `pl[0]`.
On `subsecondTimeline` the cut removes the fractions of a second: `whodunnit`
returns B: 1 on the stored times and `printResults` obtains A: 1.  The other
output modes leave the timeline as it is. -/
theorem C15_timeline_mode_cuts_stored_times :
    (processResults goRuntime registryCommands defaultModules 0).map Prod.snd
        = Except.ok registryTimeline ∧
      whodunnit goRuntime registryTimeline = Except.ok [{ Name := "A", Score := 1 }] ∧
      (goRuntime.rangeOrder 0 registryTimeline).foldlM renderArtefact registryTimeline
        = Except.ok [("Software/Run", [occurrence "A" "registry" "2023-01-01 10:00:00",
                                       occurrence "B" "registry" "2023-01-01 12:00:00"])] ∧
      printResults goRuntime registryCommands registryTimeline "timeline"
        = Except.error Panic.indexOutOfRange ∧
      whodunnit goRuntime subsecondTimeline = Except.ok [{ Name := "B", Score := 1 }] ∧
      printResults goRuntime registryCommands subsecondTimeline "timeline"
        = Except.ok
          ([("x.exe", [occurrence "A" "prefetch" "2023-01-01 10:00:00",
                       occurrence "B" "prefetch" "2023-01-01 10:00:00"])],
           some [{ Name := "A", Score := 1 }]) ∧
      printResults goRuntime registryCommands registryTimeline "csv"
        = Except.ok (registryTimeline, none) :=
  ⟨by rfl, by rfl, by rfl, by rfl, by rfl, by rfl, by rfl⟩

/-- C18 (behaviour of the code at the failing input): host B reports `x.exe`,
host A reports `y.exe`, then host B reports `x.exe` and `y.exe` in one command,
visited in this order.  Host B has no entry in the list of `y.exe`, yet its
occurrence is not appended: the list of `y.exe` is left with host A alone,
because `found` was set while `x.exe` of the same record was handled. -/
theorem C18_later_artefact_of_record_not_appended :
    (processResults goRuntime secondArtefactCommands defaultModules 0).map Prod.snd
        = Except.ok [("x.exe", [occurrence "B" "prefetch" "2023-01-01 10:00:00"]),
                     ("y.exe", [occurrence "A" "prefetch" "2023-01-01 11:00:00"])] ∧
      addArtefact
          { ActionID := 7, CommandID := 3, Module := "prefetch", Agent := "B",
            Status := "success",
            Artefacts := [("x.exe", "2023-01-01 12:00:00"), ("y.exe", "2023-01-01 12:30:00")] }
          (true, [("x.exe", [occurrence "B" "prefetch" "2023-01-01 10:00:00"]),
                  ("y.exe", [occurrence "A" "prefetch" "2023-01-01 11:00:00"])])
          ("y.exe", "2023-01-01 12:30:00")
        = (true, [("x.exe", [occurrence "B" "prefetch" "2023-01-01 10:00:00"]),
                  ("y.exe", [occurrence "A" "prefetch" "2023-01-01 11:00:00"])]) :=
  ⟨by rfl, by rfl⟩

/-- C20 (behaviour of the code at the failing input): host A reports `x.exe`
in a prefetch command; host B then runs a file search whose payload holds no
search results.  The record of host B is returned with the artefact of host A
(`rec.Artefacts` is assigned inside the loop over the search labels only, so it
keeps the map of the previous record), and the timeline holds an occurrence of
host B under `x.exe`, with the time reported by host A. -/
theorem C20_empty_file_payload_inherits_artefacts :
    unmarshalSearchResults (Json.obj []) = [] ∧
      processResults goRuntime emptyFileCommands defaultModules 0
        = Except.ok
          ([{ ActionID := 7, CommandID := 1, Module := "prefetch", Agent := "A",
              Status := "success", Artefacts := [("x.exe", "2023-01-01 10:00:00")] },
            { ActionID := 7, CommandID := 2, Module := "file", Agent := "B",
              Status := "success", Artefacts := [("x.exe", "2023-01-01 10:00:00")] }],
           [("x.exe", [occurrence "A" "prefetch" "2023-01-01 10:00:00",
                       occurrence "B" "file" "2023-01-01 10:00:00"])]) :=
  ⟨by rfl, by rfl⟩

/-! ## C21: the insertion rule of the timeline loop -/

theorem GoMap.set_set {α : Type} (m : GoMap α) (k : String) (a b : α) :
    (m.set k a).set k b = m.set k b := by
  induction m with
  | nil => simp [GoMap.set]
  | cons kv rest ih =>
    obtain ⟨k', v'⟩ := kv
    by_cases hk : k' = k
    · simp [GoMap.set, hk]
    · simp [GoMap.set, hk, ih]

theorem GoMap.set_get_self {α : Type} (m : GoMap α) (k : String) (v : α)
    (h : m.get k = some v) : m.set k v = m := by
  induction m with
  | nil => simp [GoMap.get] at h
  | cons kv rest ih =>
    obtain ⟨k', v'⟩ := kv
    by_cases hk : k' = k
    · simp only [GoMap.get, hk, if_true, Option.some.injEq] at h
      simp [GoMap.set, hk, h]
    · simp only [GoMap.get, hk, if_false] at h
      simp [GoMap.set, hk, ih h]

/-- Once the list has been written, the rest of the scan leaves the timeline as it is. -/
theorem foldl_scanEntry_written (k : String) (Times : List TimeEntry) (tr : TimeEntry)
    (l : List TimeEntry) (found : Bool) (t : Timeline) :
    (l.foldl (scanEntry k Times tr) (found, t.set k (Times ++ [tr]))).2
      = t.set k (Times ++ [tr]) := by
  induction l generalizing found with
  | nil => rfl
  | cons e rest ih =>
    simp only [List.foldl_cons]
    by_cases ha : e.Agent = tr.Agent
    · simpa [scanEntry, ha] using ih true
    · cases found with
      | false => simpa [scanEntry, ha, GoMap.set_set] using ih false
      | true => simpa [scanEntry, ha] using ih true

/-- The flag after the scan: set when it was set before or the host is in the list. -/
theorem foldl_scanEntry_flag (k : String) (Times : List TimeEntry) (tr : TimeEntry)
    (l : List TimeEntry) (st : Bool × Timeline) :
    (l.foldl (scanEntry k Times tr) st).1
      = (st.1 || l.any fun e => decide (e.Agent = tr.Agent)) := by
  induction l generalizing st with
  | nil => simp
  | cons e rest ih =>
    simp only [List.foldl_cons, ih, List.any_cons]
    by_cases ha : e.Agent = tr.Agent
    · simp [scanEntry, ha]
    · cases hf : st.1 <;> simp [scanEntry, ha, hf]

/-- The scan of a non-empty list: the occurrence is appended exactly when the
flag is unset and the first entry belongs to another host. -/
theorem foldl_scanEntry_cons (k : String) (tr : TimeEntry) (e : TimeEntry)
    (rest : List TimeEntry) (found : Bool) (t : Timeline) :
    ((e :: rest).foldl (scanEntry k (e :: rest) tr) (found, t)).2
      = if found = false ∧ e.Agent ≠ tr.Agent then t.set k ((e :: rest) ++ [tr]) else t := by
  simp only [List.foldl_cons]
  by_cases ha : e.Agent = tr.Agent
  · simp [scanEntry, ha, foldl_scanEntry_found]
  · cases found with
    | false =>
      have h := foldl_scanEntry_written k (e :: rest) tr rest false t
      simpa [scanEntry, ha] using h
    | true => simp [scanEntry, ha, foldl_scanEntry_found]

/-- C21: the insertion step of the timeline loop for an artefact `(name, v)`
of the record `curRec` (the name is not empty, so the step is entered), reached
with the flag `found`.  When the list of the identity is non-empty, with first
entry `e`: the occurrence is appended at the end of the list, all else
unchanged, if `found` is false and `e` belongs to another host, and otherwise
the timeline is unchanged; so the list ends up one entry longer exactly in the
first case.  When the list is empty or absent: the occurrence is inserted as
the only entry and `found` keeps its value. -/
theorem C21_insertion_rule (curRec : Record) (found : Bool) (t : Timeline) (name v : String)
    (hname : name ≠ "") :
    (∀ (e : TimeEntry) (rest : List TimeEntry),
        t.get (stringsReplace name) = some (e :: rest) →
        (addArtefact curRec (found, t) (name, v)).2
            = (if found = false ∧ e.Agent ≠ curRec.Agent
               then t.set (stringsReplace name) ((e :: rest) ++ [recordOccurrence curRec v])
               else t) ∧
          ((addArtefact curRec (found, t) (name, v)).2.get (stringsReplace name)
              = some ((e :: rest) ++ [recordOccurrence curRec v])
            ↔ found = false ∧ e.Agent ≠ curRec.Agent) ∧
          (¬ (found = false ∧ e.Agent ≠ curRec.Agent) →
            (addArtefact curRec (found, t) (name, v)).2.get (stringsReplace name)
              = some (e :: rest))) ∧
      ((t.get (stringsReplace name)).getD [] = [] →
        addArtefact curRec (found, t) (name, v)
          = (found, t.set (stringsReplace name) [recordOccurrence curRec v])) := by
  constructor
  · intro e rest hget
    have hstep : (addArtefact curRec (found, t) (name, v)).2
        = (if found = false ∧ e.Agent ≠ curRec.Agent
           then t.set (stringsReplace name) ((e :: rest) ++ [recordOccurrence curRec v])
           else t) := by
      have h := foldl_scanEntry_cons (stringsReplace name) (recordOccurrence curRec v) e rest
        found t
      simpa [addArtefact, hname, hget, recordOccurrence] using h
    refine ⟨hstep, ?_, ?_⟩
    · rw [hstep]
      by_cases hc : found = false ∧ e.Agent ≠ curRec.Agent
      · simp only [hc, and_self, ne_eq, not_false_eq_true, if_true, GoMap.get_set_self]
      · simp only [hc, if_false, hget, Option.some.injEq, iff_false]
        intro h
        have := congrArg List.length h
        simp at this
    · intro hc
      rw [hstep]
      simp only [hc, if_false, hget]
  · intro hempty
    simp [addArtefact, hname, hempty, GoMap.get_set_self, GoMap.set_set, recordOccurrence]

/-- C21 for a record of host B and the identity `x.exe`, whose list holds host
A: with the flag unset the occurrence of B is appended after A; for the
identity `y.exe`, which has no list yet, the occurrence is inserted and the
flag stays unset. -/
theorem C21_insertion_rule_witness :
    "x.exe" ≠ "" ∧
      (addArtefact { Agent := "B", Module := "prefetch", Status := "success", ActionID := 7 }
          (false, [("x.exe", [occurrence "A" "prefetch" "2023-01-01 10:00:00"])])
          ("x.exe", "2023-01-01 12:00:00")).2
        = [("x.exe", [occurrence "A" "prefetch" "2023-01-01 10:00:00",
                      occurrence "B" "prefetch" "2023-01-01 12:00:00"])] ∧
      addArtefact { Agent := "B", Module := "prefetch", Status := "success", ActionID := 7 }
          (false, [("x.exe", [occurrence "A" "prefetch" "2023-01-01 10:00:00"])])
          ("y.exe", "2023-01-01 12:00:00")
        = (false, [("x.exe", [occurrence "A" "prefetch" "2023-01-01 10:00:00"]),
                   ("y.exe", [occurrence "B" "prefetch" "2023-01-01 12:00:00"])]) :=
  ⟨by decide,
    ((C21_insertion_rule { Agent := "B", Module := "prefetch", Status := "success", ActionID := 7 }
      false [("x.exe", [occurrence "A" "prefetch" "2023-01-01 10:00:00"])] "x.exe"
      "2023-01-01 12:00:00" (by decide)).1 (occurrence "A" "prefetch" "2023-01-01 10:00:00") []
      (by rfl)).1,
    (C21_insertion_rule { Agent := "B", Module := "prefetch", Status := "success", ActionID := 7 }
      false [("x.exe", [occurrence "A" "prefetch" "2023-01-01 10:00:00"])] "y.exe"
      "2023-01-01 12:00:00" (by decide)).2 (by rfl)⟩

/-! ## C22: whodunnit on registry and prefetch occurrences -/

/-- C22 (behaviour of the code at the failing input): host A reports the
prefetch artefact `x.exe` with no execution date.  The timeline built by
`processResults` holds one non-empty list with one prefetch occurrence; its
time string parses under no layout, the occurrence is skipped, the hosts map is
empty when `sortHosts` is called and `whodunnit` panics on `pl[0]`: it returns
no ranking.  The same happens for a registry occurrence whose time lacks the
final `Z`. -/
theorem C22_whodunnit_panics_on_empty_hosts :
    (processResults goRuntime [prefetchCommand 1 "A" "x.exe" ""] defaultModules 0).map Prod.snd
        = Except.ok undatedTimeline ∧
      registryPrefetchOnly undatedTimeline ∧
      sortHosts goRuntime 1 [] = [] ∧
      whodunnit goRuntime undatedTimeline = Except.error Panic.indexOutOfRange ∧
      registryPrefetchOnly [("Software/Run", [occurrence "A" "registry" "2023-01-01 10:00:00"])] ∧
      whodunnit goRuntime [("Software/Run", [occurrence "A" "registry" "2023-01-01 10:00:00"])]
        = Except.error Panic.indexOutOfRange := by
  refine ⟨by rfl, ?_, by rfl, by rfl, ?_, by rfl⟩
  · unfold registryPrefetchOnly; decide
  · unfold registryPrefetchOnly; decide

/-! ## C7: the host that reports an identity first keeps one occurrence -/

theorem foldl_scanEntry_get_other (k k₂ : String) (hne : k ≠ k₂) (Times : List TimeEntry)
    (tr : TimeEntry) (l : List TimeEntry) (st : Bool × Timeline) :
    (l.foldl (scanEntry k Times tr) st).2.get k₂ = st.2.get k₂ := by
  induction l generalizing st with
  | nil => rfl
  | cons e rest ih =>
    simp only [List.foldl_cons]
    rw [ih]
    by_cases ha : e.Agent = tr.Agent
    · simp [scanEntry, ha]
    · cases hf : st.1 <;> simp [scanEntry, ha, hf, GoMap.get_set_other _ _ _ _ hne]

/-- The insertion step for one identity leaves the list of every other identity as it is. -/
theorem addArtefact_get_other (curRec : Record) (st : Bool × Timeline) (kv : String × String)
    (k : String) (hk : kv.1 = "" ∨ stringsReplace kv.1 ≠ k) :
    (addArtefact curRec st kv).2.get k = st.2.get k := by
  by_cases hempty : kv.1 = ""
  · simp [addArtefact, hempty]
  · have hne : stringsReplace kv.1 ≠ k := hk.resolve_left hempty
    by_cases hlen : ((st.2.get (stringsReplace kv.1)).getD []).length = 0
    · simp [addArtefact, hempty, hlen, GoMap.get_set_self, GoMap.get_set_other _ _ _ _ hne]
    · simp only [addArtefact, ne_eq, hempty, not_false_eq_true, if_true, hlen, if_false]
      exact foldl_scanEntry_get_other _ _ hne _ _ _ _

/-- The insertion step keeps the first entry of a list, and keeps the host of
the first entry out of the rest of the list. -/
theorem addArtefact_head_stable (curRec : Record) (st : Bool × Timeline) (kv : String × String)
    (k : String) (e : TimeEntry) (rest : List TimeEntry)
    (hget : st.2.get k = some (e :: rest)) (hrest : ∀ x ∈ rest, x.Agent ≠ e.Agent) :
    ∃ rest', (addArtefact curRec st kv).2.get k = some (e :: rest') ∧
      ∀ x ∈ rest', x.Agent ≠ e.Agent := by
  by_cases hk : kv.1 = "" ∨ stringsReplace kv.1 ≠ k
  · exact ⟨rest, by rw [addArtefact_get_other curRec st kv k hk]; exact hget, hrest⟩
  · simp only [not_or, not_not] at hk
    obtain ⟨hname, hkey⟩ := hk
    subst hkey
    have hstep : (addArtefact curRec st kv).2
        = (if st.1 = false ∧ e.Agent ≠ curRec.Agent
           then st.2.set (stringsReplace kv.1) ((e :: rest) ++ [recordOccurrence curRec kv.2])
           else st.2) := by
      have h := foldl_scanEntry_cons (stringsReplace kv.1) (recordOccurrence curRec kv.2) e rest
        st.1 st.2
      simpa [addArtefact, hname, hget, recordOccurrence] using h
    rw [hstep]
    by_cases hc : st.1 = false ∧ e.Agent ≠ curRec.Agent
    · refine ⟨rest ++ [recordOccurrence curRec kv.2], by simp [hc, GoMap.get_set_self], ?_⟩
      intro x hx
      rcases List.mem_append.mp hx with hx | hx
      · exact hrest x hx
      · rw [List.mem_singleton.mp hx]
        exact fun h => hc.2 h.symm
    · exact ⟨rest, by simp only [hc, if_false]; exact hget, hrest⟩

theorem foldl_addArtefact_head_stable (curRec : Record) (l : List (String × String))
    (st : Bool × Timeline) (k : String) (e : TimeEntry) (rest : List TimeEntry)
    (hget : st.2.get k = some (e :: rest)) (hrest : ∀ x ∈ rest, x.Agent ≠ e.Agent) :
    ∃ rest', (l.foldl (addArtefact curRec) st).2.get k = some (e :: rest') ∧
      ∀ x ∈ rest', x.Agent ≠ e.Agent := by
  induction l generalizing st rest with
  | nil => exact ⟨rest, hget, hrest⟩
  | cons a tail ih =>
    obtain ⟨rest1, h1, hr1⟩ := addArtefact_head_stable curRec st a k e rest hget hrest
    exact ih _ rest1 h1 hr1

theorem foldl_addRecord_head_stable (rt : GoRuntime) (l : List Record) (st : Timeline × Nat)
    (k : String) (e : TimeEntry) (rest : List TimeEntry)
    (hget : st.1.get k = some (e :: rest)) (hrest : ∀ x ∈ rest, x.Agent ≠ e.Agent) :
    ∃ rest', (l.foldl (addRecord rt) st).1.get k = some (e :: rest') ∧
      ∀ x ∈ rest', x.Agent ≠ e.Agent := by
  induction l generalizing st rest with
  | nil => exact ⟨rest, hget, hrest⟩
  | cons r tail ih =>
    obtain ⟨rest1, h1, hr1⟩ := foldl_addArtefact_head_stable r
      (rt.rangeOrder st.2 r.Artefacts) (false, st.1) k e rest hget hrest
    exact ih _ rest1 h1 hr1

theorem foldl_addArtefact_absent (curRec : Record) (l : List (String × String))
    (st : Bool × Timeline) (k : String) (hget : st.2.get k = none)
    (hl : ∀ a ∈ l, a.1 = "" ∨ stringsReplace a.1 ≠ k) :
    (l.foldl (addArtefact curRec) st).2.get k = none := by
  induction l generalizing st with
  | nil => exact hget
  | cons a tail ih =>
    refine ih _ ?_ (fun b hb => hl b (List.mem_cons_of_mem _ hb))
    rw [addArtefact_get_other curRec st a k (hl a (List.mem_cons_self _ _))]
    exact hget

theorem foldl_addRecord_absent {rt : GoRuntime} (hrt : rt.Valid) (l : List Record)
    (st : Timeline × Nat) (k : String) (hget : st.1.get k = none)
    (hl : ∀ r ∈ l, ∀ a ∈ r.Artefacts, a.1 = "" ∨ stringsReplace a.1 ≠ k) :
    (l.foldl (addRecord rt) st).1.get k = none := by
  induction l generalizing st with
  | nil => exact hget
  | cons r tail ih =>
    refine ih _ ?_ (fun r' hr' => hl r' (List.mem_cons_of_mem _ hr'))
    exact foldl_addArtefact_absent r _ (false, st.1) k hget
      (fun a ha => hl r (List.mem_cons_self _ _) a ((hrt.range_perm st.2 r.Artefacts).mem_iff.mp ha))

/-- The first artefact of a record that names an identity without a list
becomes the first entry of the list of that identity. -/
theorem foldl_addArtefact_first (curRec : Record) (l : List (String × String))
    (st : Bool × Timeline) (k : String) (hget : st.2.get k = none)
    (hl : ∃ a ∈ l, a.1 ≠ "" ∧ stringsReplace a.1 = k) :
    ∃ a ∈ l, a.1 ≠ "" ∧ stringsReplace a.1 = k ∧ ∃ rest,
      (l.foldl (addArtefact curRec) st).2.get k = some (recordOccurrence curRec a.2 :: rest) ∧
      ∀ x ∈ rest, x.Agent ≠ curRec.Agent := by
  induction l generalizing st with
  | nil => obtain ⟨a, ha, -⟩ := hl; simp at ha
  | cons b tail ih =>
    by_cases hb : b.1 ≠ "" ∧ stringsReplace b.1 = k
    · obtain ⟨hbne, hbk⟩ := hb
      have hins : (addArtefact curRec st b).2.get k = some [recordOccurrence curRec b.2] := by
        subst hbk
        simp [addArtefact, hbne, hget, GoMap.get_set_self, recordOccurrence]
      obtain ⟨rest, hr, hrest⟩ := foldl_addArtefact_head_stable curRec tail
        (addArtefact curRec st b) k (recordOccurrence curRec b.2) [] hins (by simp)
      exact ⟨b, List.mem_cons_self _ _, hbne, hbk, rest, hr, hrest⟩
    · have hb' : b.1 = "" ∨ stringsReplace b.1 ≠ k := by
        by_cases h : b.1 = ""
        · exact Or.inl h
        · exact Or.inr (fun hk => hb ⟨h, hk⟩)
      obtain ⟨a, ha, hane, hak⟩ := hl
      have hatail : a ∈ tail := by
        rcases List.mem_cons.mp ha with rfl | h
        · exact absurd ⟨hane, hak⟩ hb
        · exact h
      obtain ⟨a', ha', hne', hk', rest, hr, hrest⟩ := ih (addArtefact curRec st b)
        (by rw [addArtefact_get_other curRec st b k hb']; exact hget) ⟨a, hatail, hane, hak⟩
      exact ⟨a', List.mem_cons_of_mem _ ha', hne', hk', rest, hr, hrest⟩

/-- In the timeline built from `pre ++ r :: post`, where `r` is the first
record with an artefact of the identity `k`: the list of `k` starts with the
occurrence of `r`, and no later entry of the list belongs to the host of `r`. -/
theorem buildTimeline_first_reporter {rt : GoRuntime} (hrt : rt.Valid) (pre post : List Record)
    (r : Record) (n : Nat) (k : String)
    (hpre : ∀ r' ∈ pre, ∀ a ∈ r'.Artefacts, a.1 = "" ∨ stringsReplace a.1 ≠ k)
    (hr : ∃ a ∈ r.Artefacts, a.1 ≠ "" ∧ stringsReplace a.1 = k) :
    ∃ a ∈ r.Artefacts, a.1 ≠ "" ∧ stringsReplace a.1 = k ∧ ∃ rest,
      (buildTimeline rt (pre ++ r :: post) [] n).get k
        = some (recordOccurrence r a.2 :: rest) ∧
      ∀ x ∈ rest, x.Agent ≠ r.Agent := by
  unfold buildTimeline
  rw [List.foldl_append, List.foldl_cons]
  have hnone := foldl_addRecord_absent hrt pre ([], n) k rfl hpre
  have hperm := hrt.range_perm (pre.foldl (addRecord rt) ([], n)).2 r.Artefacts
  obtain ⟨a, ha, hane, hak⟩ := hr
  obtain ⟨a', ha', hne', hk', rest, hget, hrest⟩ := foldl_addArtefact_first r
    (rt.rangeOrder (pre.foldl (addRecord rt) ([], n)).2 r.Artefacts)
    (false, (pre.foldl (addRecord rt) ([], n)).1) k hnone ⟨a, hperm.mem_iff.mpr ha, hane, hak⟩
  obtain ⟨rest', hget', hrest'⟩ := foldl_addRecord_head_stable rt post
    (addRecord rt (pre.foldl (addRecord rt) ([], n)) r) k (recordOccurrence r a'.2) rest hget
    hrest
  exact ⟨a', hperm.mem_iff.mp ha', hne', hk', rest', hget', hrest'⟩
theorem foldlM_fileArtefact_keeps (mfs : List matchedfile) (arts : GoMap String) (f : String)
    (h : ∀ mf ∈ mfs, fileName mf.File ≠ Except.ok f) :
    ∃ arts', mfs.foldlM fileArtefact arts = Except.ok arts' ∧ arts'.get f = arts.get f := by
  induction mfs generalizing arts with
  | nil => exact ⟨arts, rfl, rfl⟩
  | cons mf rest ih =>
    obtain ⟨g, hg⟩ := fileName_total mf.File
    have hne : g ≠ f := fun e => h mf (List.mem_cons_self _ _) (e ▸ hg)
    obtain ⟨arts', h1, h2⟩ := ih (arts.set g mf.FileInfo.Mtime)
      (fun x hx => h x (List.mem_cons_of_mem _ hx))
    refine ⟨arts', ?_, by rw [h2, GoMap.get_set_other _ _ _ _ hne]⟩
    rw [List.foldlM_cons]
    simp only [fileArtefact, hg, bind, Except.bind, pure, Except.pure]
    exact h1

/-- Of the matched files of one search label that have the same file name, the
last one gives the time kept in `arts`. -/
theorem foldlM_fileArtefact_last (pre post : List matchedfile) (mf : matchedfile) (f : String)
    (hf : fileName mf.File = Except.ok f)
    (hpost : ∀ x ∈ post, fileName x.File ≠ Except.ok f) (arts : GoMap String) :
    ∃ arts', (pre ++ mf :: post).foldlM fileArtefact arts = Except.ok arts' ∧
      arts'.get f = some mf.FileInfo.Mtime := by
  obtain ⟨arts1, h1⟩ := foldlM_fileArtefact_total pre arts
  obtain ⟨arts', h2, hget⟩ := foldlM_fileArtefact_keeps post (arts1.set f mf.FileInfo.Mtime) f hpost
  refine ⟨arts', ?_, by rw [hget, GoMap.get_set_self]⟩
  rw [List.foldlM_append, h1]
  simp only [bind, Except.bind, List.foldlM_cons, fileArtefact, hf, pure, Except.pure]
  exact h2

/-- The record of a file command keeps, for a file name, the time of the last
matched file with that name, whatever was processed before the command. -/
theorem processCommand_fileCommand_last {rt : GoRuntime} (hrt : rt.Valid) (st : Decoding)
    (id : Int) (host label : String) (pre post : List (String × String)) (path time f : String)
    (hf : fileName path = Except.ok f) (hpost : ∀ p ∈ post, fileName p.1 ≠ Except.ok f) :
    ∃ st' r, processCommand rt defaultModules 0 st
        (fileCommand id host label (pre ++ (path, time) :: post)) = Except.ok st' ∧
      st'.records = st.records ++ [r] ∧ r.Agent = host ∧ r.CommandID = id ∧
      r.Artefacts.get f = some time := by
  obtain ⟨arts, harts, hget⟩ := foldlM_fileArtefact_last
    (pre.map fun pt => { File := pt.1, FileInfo := { Mtime := pt.2 } })
    (post.map fun pt => { File := pt.1, FileInfo := { Mtime := pt.2 } })
    { File := path, FileInfo := { Mtime := time } } f hf
    (by
      intro x hx
      obtain ⟨p, hp, rfl⟩ := List.mem_map.mp hx
      exact hpost p hp) []
  have hmap : ((pre ++ (path, time) :: post).map fun pt =>
      ({ File := pt.1, FileInfo := { Mtime := pt.2 } } : matchedfile))
      = (pre.map fun pt => { File := pt.1, FileInfo := { Mtime := pt.2 } }) ++
        { File := path, FileInfo := { Mtime := time } } ::
          (post.map fun pt => { File := pt.1, FileInfo := { Mtime := pt.2 } }) := by
    simp
  exact ⟨_, _, processCommand_fileCommand hrt st id host label _ arts (by rw [hmap]; exact harts),
    rfl, rfl, rfl, hget⟩
/-- C7 (amended): for every runtime that meets the library contracts and every
run.  (1) If `r` is the first of the returned records that holds an artefact of
the identity `k`, then whatever records follow, of the same host or of others,
the list of `k` in the returned timeline starts with the occurrence built from
`r`, carrying the time that `r` holds for the artefact, and no later entry of
the list belongs to the host of `r`: the host that reports an identity first
keeps exactly one occurrence, with its first time.  (2) The record of a file
command holds for a file name the time of the last matched file with that name
(one search label), whatever ran before.  (3) Two commands of one host that
report the same path give one occurrence with the time of the first command,
and one command that lists the path twice gives one occurrence with the time
listed last.  (4) The insertion step leaves the timeline unchanged whenever the
first entry of the identity's list belongs to the inserting host. -/
theorem C7_first_command_wins (rt : GoRuntime) (hrt : rt.Valid) :
    (∀ (commands : List Command) (modules : List String) (targetAction : Int)
        (records pre post : List Record) (r : Record) (t : Timeline) (k : String),
        processResults rt commands modules targetAction = Except.ok (records, t) →
        records = pre ++ r :: post →
        (∀ r' ∈ pre, ∀ a ∈ r'.Artefacts, a.1 = "" ∨ stringsReplace a.1 ≠ k) →
        (∃ a ∈ r.Artefacts, a.1 ≠ "" ∧ stringsReplace a.1 = k) →
        ∃ a ∈ r.Artefacts, a.1 ≠ "" ∧ stringsReplace a.1 = k ∧ ∃ rest,
          t.get k = some (recordOccurrence r a.2 :: rest) ∧
          ∀ x ∈ rest, x.Agent ≠ r.Agent) ∧
      (∀ (st : Decoding) (id : Int) (host label : String) (pre post : List (String × String))
          (path time f : String),
        fileName path = Except.ok f → (∀ p ∈ post, fileName p.1 ≠ Except.ok f) →
        ∃ st' r, processCommand rt defaultModules 0 st
            (fileCommand id host label (pre ++ (path, time) :: post)) = Except.ok st' ∧
          st'.records = st.records ++ [r] ∧ r.Agent = host ∧ r.CommandID = id ∧
          r.Artefacts.get f = some time) ∧
      (∀ (id₁ id₂ : Int) (host label₁ label₂ path time₁ time₂ f : String),
        fileName path = Except.ok f → f ≠ "" →
        (processResults rt
            [fileCommand id₁ host label₁ [(path, time₁)],
             fileCommand id₂ host label₂ [(path, time₂)]]
            defaultModules 0).map Prod.snd
            = Except.ok [(stringsReplace f, [occurrence host "file" time₁])] ∧
          (processResults rt [fileCommand id₁ host label₁ [(path, time₁), (path, time₂)]]
            defaultModules 0).map Prod.snd
            = Except.ok [(stringsReplace f, [occurrence host "file" time₂])]) ∧
      (∀ (curRec : Record) (found : Bool) (t : Timeline) (name v : String) (e : TimeEntry)
          (rest : List TimeEntry),
        name ≠ "" → t.get (stringsReplace name) = some (e :: rest) → e.Agent = curRec.Agent →
          addArtefact curRec (found, t) (name, v) = (true, t)) := by
  refine ⟨?_, ?_, ?_, ?_⟩
  · intro commands modules targetAction records pre post r t k h hrecs hpre hr
    unfold processResults at h
    cases hst : commands.foldlM (processCommand rt modules targetAction) {} with
    | error err => simp [hst, bind, Except.bind] at h
    | ok st =>
      simp only [hst, bind, Except.bind, pure, Except.pure, Except.ok.injEq, Prod.mk.injEq] at h
      obtain ⟨h1, h2⟩ := h
      rw [← h2, h1, hrecs]
      exact buildTimeline_first_reporter hrt pre post r st.ranges k hpre hr
  · intro st id host label pre post path time f hf hpost
    exact processCommand_fileCommand_last hrt st id host label pre post path time f hf hpost
  · intro id₁ id₂ host label₁ label₂ path time₁ time₂ f hf hne
    exact ⟨(processResults_fileCommand_twice rt hrt id₁ id₂ host label₁ label₂ path time₁ time₂ f
        hf hne).1,
      (processResults_fileCommand_twice rt hrt id₁ id₂ host label₁ label₂ path time₁ time₂ f
        hf hne).2.1⟩
  · intro curRec found t name v e rest hname hget hhost
    exact addArtefact_head_host curRec found t name v e rest hname hget hhost

/-- C7 (amended) at `firstReporterCommands`: host C reports
`C:\Users\mike\Downloads\evil.exe` at 10:00:00, host A reports the same
identity at 11:00:00 and host C reports it again at 12:00:00.  The list of
`USER/Downloads/evil.exe` starts with the occurrence of C with the time
10:00:00 and holds no other entry of C. -/
theorem C7_first_command_wins_witness :
    goRuntime.Valid ∧
      processResults goRuntime firstReporterCommands defaultModules 0
        = Except.ok
          ([fileRecord 1 "C" "search" "USER\\Downloads\\evil.exe" "2023-01-01 10:00:00 +0000 UTC",
            fileRecord 2 "A" "search" "USER\\Downloads\\evil.exe" "2023-01-01 11:00:00 +0000 UTC",
            fileRecord 3 "C" "search" "USER\\Downloads\\evil.exe" "2023-01-01 12:00:00 +0000 UTC"],
           [("USER/Downloads/evil.exe",
              [occurrence "C" "file" "2023-01-01 10:00:00 +0000 UTC",
               occurrence "A" "file" "2023-01-01 11:00:00 +0000 UTC"])]) ∧
      ∃ a ∈ (fileRecord 1 "C" "search" "USER\\Downloads\\evil.exe"
                "2023-01-01 10:00:00 +0000 UTC").Artefacts,
        a.1 ≠ "" ∧ stringsReplace a.1 = "USER/Downloads/evil.exe" ∧ ∃ rest,
          GoMap.get
              [("USER/Downloads/evil.exe",
                [occurrence "C" "file" "2023-01-01 10:00:00 +0000 UTC",
                 occurrence "A" "file" "2023-01-01 11:00:00 +0000 UTC"])]
              "USER/Downloads/evil.exe"
            = some (recordOccurrence
                (fileRecord 1 "C" "search" "USER\\Downloads\\evil.exe"
                  "2023-01-01 10:00:00 +0000 UTC") a.2 :: rest) ∧
          ∀ x ∈ rest, x.Agent ≠ "C" :=
  ⟨goRuntime_valid, by rfl,
    (C7_first_command_wins goRuntime goRuntime_valid).1 firstReporterCommands defaultModules 0
      _ []
      [fileRecord 2 "A" "search" "USER\\Downloads\\evil.exe" "2023-01-01 11:00:00 +0000 UTC",
       fileRecord 3 "C" "search" "USER\\Downloads\\evil.exe" "2023-01-01 12:00:00 +0000 UTC"]
      (fileRecord 1 "C" "search" "USER\\Downloads\\evil.exe" "2023-01-01 10:00:00 +0000 UTC")
      [("USER/Downloads/evil.exe",
        [occurrence "C" "file" "2023-01-01 10:00:00 +0000 UTC",
         occurrence "A" "file" "2023-01-01 11:00:00 +0000 UTC"])]
      "USER/Downloads/evil.exe" (by rfl) (by rfl) (by simp)
      ⟨("USER\\Downloads\\evil.exe", "2023-01-01 10:00:00 +0000 UTC"), by simp [fileRecord],
        by decide, by rfl⟩⟩

end ReadDB
